import Mathlib

/-
  Verification of the miniargv argument/environment/config parsing engine.

  Shallow embedding of src/lib/miniargv.c.  C strings are modelled as
  `List Char` (no interior NUL bytes), the NULL-terminated `argv`/`env`
  arrays as `List (List Char)`, and the definition table as a
  `List miniargv_definition` (the NULL-callback sentinel entry that ends
  the C array is the end of the Lean list).  Callbacks are modelled as
  state-transforming functions returning an `Int` status; every callback
  invocation performed by the engine is additionally recorded in an event
  trace so that invocation order can be stated and proved.
-/

set_option maxHeartbeats 1600000

namespace Miniargv

/-- One entry of the definition table (`struct miniargv_definition_struct`,
miniargv.h).  `shortarg` models the `char` field (`0` = absent),
`longarg` the `const char*` field (`NULL` = absent), and `argparam` the
presence (non-`NULL`-ness) of the `argparam` string, which is all the
matching engine reads from that field.  `callbackfn`, `userdata` and
`help` are not represented here: the callback behaviour is supplied
separately to the engine, and every entry of the Lean list corresponds
to a C entry with a non-NULL `callbackfn`. -/
structure miniargv_definition where
  shortarg : Option Char
  longarg : Option (List Char)
  argparam : Bool
deriving Repr, DecidableEq

/-- A callback invocation performed by the argument engine:
`defcb pos idx value` is a call of the callback of table entry `idx`
while the traversal cursor is at input index `pos`, with `value` the
`value` argument (`none` models the C `NULL`); `badcb pos token` is a
call of the bad-argument handler `badfn` on the token at index `pos`. -/
inductive ArgEvent where
  | defcb (pos : Nat) (idx : Nat) (value : Option (List Char))
  | badcb (pos : Nat) (token : List Char)
deriving Repr, DecidableEq

/-- Callback behaviour for table entries: given the current caller state,
the index of the matched table entry and the value argument, produce the
`int` return code and the new caller state. -/
def Cb (σ : Type) : Type := σ → Nat → Option (List Char) → Int × σ

/-- Behaviour of the bad-argument handler `badfn` (when present). -/
def BadCb (σ : Type) : Type := σ → List Char → Int × σ

/-- The `flags` bitmask of `miniargv_process_partial`, as the three bits
the function actually tests: `MINIARG_PROCESS_FLAG_FLAGS`,
`MINIARG_PROCESS_FLAG_VALUES` and `MINIARG_PROCESS_FLAG_FIND_ONLY`. -/
structure MiniargvFlags where
  fflags : Bool
  fvalues : Bool
  ffind : Bool
deriving Repr, DecidableEq

/-- `MINIARG_PROCESS_FLAG_FLAGS` (0x01). -/
def FLAG_FLAGS : MiniargvFlags := ⟨true, false, false⟩

/-- `MINIARG_PROCESS_FLAG_VALUES` (0x02). -/
def FLAG_VALUES : MiniargvFlags := ⟨false, true, false⟩

/-- `MINIARG_PROCESS_FLAG_BOTH` (0x03). -/
def FLAG_BOTH : MiniargvFlags := ⟨true, true, false⟩

/-- `MINIARG_PROCESS_FLAG_FIND_VALUE` (0x08 | 0x02). -/
def FLAG_FIND_VALUE : MiniargvFlags := ⟨false, true, true⟩

/-- `nth l i` models the C array access `l[i]` on a NULL-terminated
array: `none` is the terminating NULL. -/
def nth {α : Type} (l : List α) (n : Nat) : Option α := l.get? n

/-- First entry of the table satisfying `p`, together with its index:
the C pattern `current_argdef = argdef; while (current_argdef->callbackfn)
{ if (p) break; current_argdef++; }`. -/
def findFirstIdx (p : miniargv_definition → Bool) :
    List miniargv_definition → Option (Nat × miniargv_definition)
  | [] => none
  | d :: ds =>
    if p d then some (0, d)
    else (findFirstIdx p ds).map (fun x => (x.1 + 1, x.2))

/-- The short-argument scan condition of miniargv.c lines 32-33:
the entry has a non-zero `shortarg` equal to the token's character. -/
def shortPred (c : Char) (d : miniargv_definition) : Bool :=
  d.shortarg = some c

/-- The long-argument match condition of miniargv.c line 67:
`strncmp(argv[i]+2, longarg, l) == 0 && (argv[i][2+l] == 0 || argv[i][2+l] == '=')`,
i.e. the long name is a prefix of the token remainder and is followed
immediately by end-of-token or `=`. -/
def longMatches (name rest : List Char) : Bool :=
  name.isPrefixOf rest &&
    (match rest.drop name.length with
     | [] => true
     | c :: _ => c = '=')

/-- The long-argument scan condition of miniargv.c lines 65-67: the entry
has a non-NULL `longarg` that boundary-matches the token remainder. -/
def longPred (rest : List Char) (d : miniargv_definition) : Bool :=
  match d.longarg with
  | none => false
  | some name => longMatches name rest

/-- The standalone-value scan condition of miniargv.c line 94:
the entry has neither a short nor a long form. -/
def standalonePred (d : miniargv_definition) : Bool :=
  d.shortarg = none && d.longarg = none

/-- Outcome of the matching part of one loop iteration of
`miniargv_process_partial` (miniargv.c lines 26-110), before the
bad-argument handling of lines 111-125.
* `ok evs s extra`: `success` was set; `extra = true` when the iteration
  performed the inner `i++` of the space-separated short-flag value
  (so the `for` loop advances the cursor by two in total).
* `unmatched evs s adv badTok`: `success` stayed `0`; `badTok` is the token
  `argv[i]` the bad-argument handler would receive, sitting at index
  `i + 1` when `adv = true` (the inner `i++` already happened) and at
  index `i` otherwise.
* `found`: find-only mode reached a standalone value: `return i`.
In each case `evs` records the callback invocations made so far. -/
inductive MatchOut (σ : Type) where
  | ok (evs : List ArgEvent) (s : σ) (extra : Bool)
  | unmatched (evs : List ArgEvent) (s : σ) (adv : Bool) (badTok : List Char)
  | found
deriving Repr, DecidableEq

/-- The callback invocations recorded in a matching outcome. -/
def MatchOut.events {σ : Type} : MatchOut σ → List ArgEvent
  | .ok evs _ _ => evs
  | .unmatched evs _ _ _ => evs
  | .found => []

/-- The recurring dispatch pattern of `miniargv_process_partial` (lines
37-40, 44-47, 51-54, 71-74, 78-81): when `gate` (the tested flags bit)
is clear, `success++` without invoking the callback; otherwise invoke the
callback of entry `j` with value `v` and set `success` exactly when it
returns `0`.  `pos` is the cursor position at the invocation, `extra`
whether the inner `i++` of the space-separated value already happened,
and `badTok` the token the bad-argument handler would receive on a
failed callback. -/
def tryCallback {σ : Type} (gate : Bool) (cb : Cb σ) (s : σ)
    (pos j : Nat) (v : Option (List Char)) (extra : Bool)
    (badTok : List Char) : MatchOut σ :=
  if !gate then .ok [] s extra
  else if (cb s j v).1 = 0 then .ok [.defcb pos j v] (cb s j v).2 extra
  else .unmatched [.defcb pos j v] (cb s j v).2 extra badTok

/-- The standalone-value branch of `miniargv_process_partial`
(miniargv.c lines 89-110): look up the standalone-value definition (the
cached `standalonevaluedef` of lines 91-101 always equals
`findFirstIdx standalonePred argdef` because the table never changes
during a traversal); when it exists, skip silently unless the values bit
is set, return the cursor in find-only mode, and otherwise invoke the
callback with the whole token as the value. -/
def standaloneCase {σ : Type} (fl : MiniargvFlags) (cb : Cb σ)
    (argdef : List miniargv_definition) (i : Nat) (tok : List Char)
    (s : σ) : MatchOut σ :=
  match findFirstIdx standalonePred argdef with
  | none => .unmatched [] s false tok
  | some (j, _) =>
    if !fl.fvalues then .ok [] s false
    else if fl.ffind then .found
    else tryCallback true cb s i j (some tok) false tok

/-- The matching part of one loop iteration of `miniargv_process_partial`
(miniargv.c lines 26-110) on the token `tok = argv[i]`.  A token is a
flag exactly when `argv[i][0] == '-' && argv[i][1]` (line 27), i.e. it
has at least two characters and starts with `-`; the short, long and
standalone scans stop at the first table entry whose scan condition
holds (the C `break` leaves the `while` as soon as that entry is
reached, whether or not `success` gets set), which is what
`findFirstIdx` computes. -/
def matchTok {σ : Type} (fl : MiniargvFlags) (cb : Cb σ)
    (argv : List (List Char)) (argdef : List miniargv_definition)
    (i : Nat) (tok : List Char) (s : σ) : MatchOut σ :=
  match tok with
  | c1 :: c2 :: rest =>
    if c1 ≠ '-' then standaloneCase fl cb argdef i tok s
    else if c2 = '-' then
      -- long argument (lines 61-88); rest = argv[i] + 2
      match findFirstIdx (longPred rest) argdef with
      | none => .unmatched [] s false tok
      | some (j, d) =>
        match d.longarg with
        | none => .unmatched [] s false tok  -- unreachable: longPred needs a long name
        | some name =>
          if !d.argparam then
            -- without value (lines 68-75): requires end-of-token after the name
            if rest.drop name.length = [] then
              tryCallback fl.fflags cb s i j none false tok
            else .unmatched [] s false tok
          else
            -- with value (lines 76-82): requires '=' after the name
            match rest.drop name.length with
            | '=' :: v => tryCallback fl.fflags cb s i j (some v) false tok
            | _ => .unmatched [] s false tok
    else
      -- short argument (lines 28-60); c2 = argv[i][1], rest = argv[i] + 2
      match findFirstIdx (shortPred c2) argdef with
      | none => .unmatched [] s false tok
      | some (j, d) =>
        if !d.argparam then
          -- without value (lines 34-41): requires nothing after the character
          if rest = [] then tryCallback fl.fflags cb s i j none false tok
          else .unmatched [] s false tok
        else if rest ≠ [] then
          -- with value and no space (lines 42-47)
          tryCallback fl.fflags cb s i j (some rest) false tok
        else
          match nth argv (i + 1) with
          | some next =>
            -- with value and space (lines 48-55): the inner i++ happened
            tryCallback fl.fflags cb s (i + 1) j (some next) true next
          | none => .unmatched [] s false tok
  | _ =>
    -- fewer than two characters: standalone value argument (lines 89-110)
    standaloneCase fl cb argdef i tok s

/-- Outcome of one full loop iteration of `miniargv_process_partial`
including the bad-argument handling: either continue (cursor advances by
two when `extra`, else by one) or return `ret` from the function. -/
inductive StepOut (σ : Type) where
  | cont (evs : List ArgEvent) (s : σ) (extra : Bool)
  | halt (ret : Int) (evs : List ArgEvent) (s : σ)
deriving Repr, DecidableEq

/-- The callback invocations recorded in a step outcome. -/
def StepOut.events {σ : Type} : StepOut σ → List ArgEvent
  | .cont evs _ _ => evs
  | .halt _ evs _ => evs

/-- One full loop iteration of `miniargv_process_partial`: the matching
of lines 26-110 followed by the bad-argument handling of lines 111-125. -/
def processStep {σ : Type} (fl : MiniargvFlags) (cb : Cb σ)
    (bad : Option (BadCb σ)) (argv : List (List Char))
    (argdef : List miniargv_definition) (i : Nat) (tok : List Char)
    (s : σ) : StepOut σ :=
  match matchTok fl cb argv argdef i tok s with
  | .ok evs s2 extra => .cont evs s2 extra
  | .found => .halt (Int.ofNat i) [] s
  | .unmatched evs s2 adv badTok =>
    let badIdx := if adv then i + 1 else i
    match bad with
    | some f =>
      let rs := f s2 badTok
      if rs.1 = 0 then .cont (evs ++ [.badcb badIdx badTok]) rs.2 adv
      else if fl.ffind then .halt (-1) (evs ++ [.badcb badIdx badTok]) rs.2
      else .halt (Int.ofNat badIdx) (evs ++ [.badcb badIdx badTok]) rs.2
    | none =>
      if fl.ffind then .halt (-1) evs s2
      else .halt (Int.ofNat badIdx) evs s2

/-- Result of a traversal: the `int` return value of the C function, the
trace of callback invocations in order, and the final caller state. -/
structure PResult (σ : Type) where
  ret : Int
  events : List ArgEvent
  state : σ
deriving Repr, DecidableEq

/-- Prepend the events of one iteration to the result of the rest of the
traversal. -/
def withEvents {σ : Type} (evs : List ArgEvent) (r : PResult σ) : PResult σ :=
  ⟨r.ret, evs ++ r.events, r.state⟩

/-- The `for` loop of `miniargv_process_partial` (miniargv.c lines
25-127), starting at cursor position `i`: stop with return value `0`
when `argv[i]` is NULL, otherwise run one iteration and continue at
`i + 1` (or `i + 2` when the iteration consumed a separate value token),
unless the iteration returned from the function. -/
def processLoop {σ : Type} (fl : MiniargvFlags) (cb : Cb σ)
    (bad : Option (BadCb σ)) (argv : List (List Char))
    (argdef : List miniargv_definition) (i : Nat) (s : σ) : PResult σ :=
  match h : nth argv i with
  | none => ⟨0, [], s⟩
  | some tok =>
    match processStep fl cb bad argv argdef i tok s with
    | .cont evs s2 extra =>
      withEvents evs
        (processLoop fl cb bad argv argdef (i + (if extra then 2 else 1)) s2)
    | .halt ret evs s2 => ⟨ret, evs, s2⟩
termination_by argv.length - i
decreasing_by
  have hi : i < argv.length := by
    simp only [nth] at h
    obtain ⟨hlt, -⟩ := List.get?_eq_some.mp h
    exact hlt
  split <;> omega

/-- Fuel-indexed twin of `processLoop`, structurally recursive so that
concrete runs evaluate by `rfl`.  It performs the same iterations and is
proved equal to `processLoop` whenever `fuel` bounds the remaining input
length (the loop always advances the cursor, so `argv.length` fuel always
suffices). -/
def processLoopF {σ : Type} (fuel : Nat) (fl : MiniargvFlags) (cb : Cb σ)
    (bad : Option (BadCb σ)) (argv : List (List Char))
    (argdef : List miniargv_definition) (i : Nat) (s : σ) : PResult σ :=
  match fuel with
  | 0 => ⟨0, [], s⟩
  | fuel2 + 1 =>
    match nth argv i with
    | none => ⟨0, [], s⟩
    | some tok =>
      match processStep fl cb bad argv argdef i tok s with
      | .cont evs s2 extra =>
        withEvents evs
          (processLoopF fuel2 fl cb bad argv argdef
            (i + (if extra then 2 else 1)) s2)
      | .halt ret evs s2 => ⟨ret, evs, s2⟩

/-- `miniargv_process_partial` (miniargv.c lines 17-128).  The starting
cursor is `1` normally and `argindex + 1` in find-only mode (the C reads
the resume index through `callbackdata`; here it is the explicit
`argindex` parameter, which is only meaningful when `fl.ffind`). -/
def miniargv_process_partial {σ : Type} (fl : MiniargvFlags) (cb : Cb σ)
    (bad : Option (BadCb σ)) (argv : List (List Char))
    (argdef : List miniargv_definition) (argindex : Nat) (s : σ) : PResult σ :=
  processLoop fl cb bad argv argdef (if fl.ffind then argindex + 1 else 1) s

/-- `miniargv_process_arg` (miniargv.c lines 154-157): one combined
left-to-right pass. -/
def miniargv_process_arg {σ : Type} (cb : Cb σ) (bad : Option (BadCb σ))
    (argv : List (List Char)) (argdef : List miniargv_definition)
    (s : σ) : PResult σ :=
  miniargv_process_partial FLAG_BOTH cb bad argv argdef 0 s

/-- `miniargv_process_arg_flags` (miniargv.c lines 159-162): the
flags-only pass. -/
def miniargv_process_arg_flags {σ : Type} (cb : Cb σ) (bad : Option (BadCb σ))
    (argv : List (List Char)) (argdef : List miniargv_definition)
    (s : σ) : PResult σ :=
  miniargv_process_partial FLAG_FLAGS cb bad argv argdef 0 s

/-- `miniargv_process_arg_params` (miniargv.c lines 164-167): the
values-only pass. -/
def miniargv_process_arg_params {σ : Type} (cb : Cb σ) (bad : Option (BadCb σ))
    (argv : List (List Char)) (argdef : List miniargv_definition)
    (s : σ) : PResult σ :=
  miniargv_process_partial FLAG_VALUES cb bad argv argdef 0 s

/-- `miniargv_get_next_arg_param` (miniargv.c lines 169-172): the
find-only query resuming after input index `argindex`. -/
def miniargv_get_next_arg_param {σ : Type} (argindex : Nat) (cb : Cb σ)
    (bad : Option (BadCb σ)) (argv : List (List Char))
    (argdef : List miniargv_definition) (s : σ) : PResult σ :=
  miniargv_process_partial FLAG_FIND_VALUE cb bad argv argdef argindex s

/-! ### Environment variable processing -/

/-- A callback invocation performed by the environment / config-file
resolvers: the callback of definition `idx` was invoked with `value`. -/
structure EnvEvent where
  idx : Nat
  value : List Char
deriving Repr, DecidableEq

/-- Callback behaviour for environment / config definitions. -/
def EnvCb (σ : Type) : Type := σ → Nat → List Char → Int × σ

/-- Result of an environment / config traversal. -/
structure EnvResult (σ : Type) where
  ret : Int
  events : List EnvEvent
  state : σ
deriving Repr, DecidableEq

/-- `strchr(pair, '=')` splitting of a `KEY=VALUE` string: `none` when the
string contains no `=`, otherwise the text before the first `=` and the
text after it. -/
def splitEq : List Char → Option (List Char × List Char)
  | [] => none
  | c :: rest =>
    if c = '=' then some ([], rest)
    else (splitEq rest).map (fun p => (c :: p.1, p.2))

/-- The inner loop of `miniargv_process_env` (miniargv.c lines 182-191)
for the definition at index `idx` with long name `name`: scan every
environment entry; on entries containing `=`, compare the key with the
long name using `strncmp(*current_env, longarg, s - *current_env)`,
i.e. over the key's length only, which holds exactly when the key is a
prefix of the long name (C strings have no interior NUL and the key
consists of the characters before the first `=`).  On a match invoke
the callback and return its result immediately when it is non-zero. -/
def processEnvDef {σ : Type} (cbe : EnvCb σ) (idx : Nat) (name : List Char) :
    List (List Char) → σ → EnvResult σ
  | [], s => ⟨0, [], s⟩
  | pair :: rest, s =>
    match splitEq pair with
    | none => processEnvDef cbe idx name rest s
    | some kv =>
      if kv.1.isPrefixOf name then
        let rs := cbe s idx kv.2
        if rs.1 = 0 then
          let r2 := processEnvDef cbe idx name rest rs.2
          ⟨r2.ret, ⟨idx, kv.2⟩ :: r2.events, r2.state⟩
        else ⟨rs.1, [⟨idx, kv.2⟩], rs.2⟩
      else processEnvDef cbe idx name rest s

/-- The outer loop of `miniargv_process_env` (miniargv.c lines 180-194):
for each definition (in table order) with a long name, scan the whole
environment; abort with the callback's result on the first non-zero
return.  `idx` is the index of the first entry of `envdef` within the
full table. -/
def processEnvGo {σ : Type} (cbe : EnvCb σ) (env : List (List Char)) :
    List miniargv_definition → Nat → σ → EnvResult σ
  | [], _, s => ⟨0, [], s⟩
  | d :: ds, idx, s =>
    match d.longarg with
    | none => processEnvGo cbe env ds (idx + 1) s
    | some name =>
      let r1 := processEnvDef cbe idx name env s
      if r1.ret = 0 then
        let r2 := processEnvGo cbe env ds (idx + 1) r1.state
        ⟨r2.ret, r1.events ++ r2.events, r2.state⟩
      else r1

/-- `miniargv_process_env` (miniargv.c lines 174-196). -/
def miniargv_process_env {σ : Type} (env : List (List Char))
    (envdef : List miniargv_definition) (cbe : EnvCb σ) (s : σ) :
    EnvResult σ :=
  processEnvGo cbe env envdef 0 s

/-! ### Combined processing (`miniargv_process`, `miniargv_process_ltr`) -/

/-- Result of `miniargv_process` / `miniargv_process_ltr`: the return
value, the environment callback trace, the argument callback trace and
the final state. -/
structure ProcResult (σ : Type) where
  ret : Int
  envEvents : List EnvEvent
  argEvents : List ArgEvent
  state : σ
deriving Repr, DecidableEq

/-- `miniargv_process` (miniargv.c lines 130-142): process the
environment (when given), then run the flags-only pass and, if it
succeeded, the values-only pass over the arguments (when given). -/
def miniargv_process {σ : Type} (argv : Option (List (List Char)))
    (env : Option (List (List Char))) (argdef envdef : List miniargv_definition)
    (cb : Cb σ) (cbe : EnvCb σ) (bad : Option (BadCb σ)) (s : σ) :
    ProcResult σ :=
  let e : EnvResult σ :=
    match env with
    | some en => miniargv_process_env en envdef cbe s
    | none => ⟨0, [], s⟩
  match argv with
  | none => ⟨e.ret, e.events, [], e.state⟩
  | some av =>
    if e.ret = 0 then
      let q1 := miniargv_process_partial FLAG_FLAGS cb bad av argdef 0 e.state
      if q1.ret = 0 then
        let q2 := miniargv_process_partial FLAG_VALUES cb bad av argdef 0 q1.state
        ⟨q2.ret, e.events, q1.events ++ q2.events, q2.state⟩
      else ⟨q1.ret, e.events, q1.events, q1.state⟩
    else ⟨e.ret, e.events, [], e.state⟩

/-- `miniargv_process_ltr` (miniargv.c lines 144-152): process the
environment (when given), then one combined left-to-right pass. -/
def miniargv_process_ltr {σ : Type} (argv : Option (List (List Char)))
    (env : Option (List (List Char))) (argdef envdef : List miniargv_definition)
    (cb : Cb σ) (cbe : EnvCb σ) (bad : Option (BadCb σ)) (s : σ) :
    ProcResult σ :=
  let e : EnvResult σ :=
    match env with
    | some en => miniargv_process_env en envdef cbe s
    | none => ⟨0, [], s⟩
  if e.ret = 0 then
    match argv with
    | none => ⟨e.ret, e.events, [], e.state⟩
    | some av =>
      let q := miniargv_process_arg cb bad av argdef e.state
      ⟨q.ret, e.events, q.events, q.state⟩
  else ⟨e.ret, e.events, [], e.state⟩

/-! ### Config file processing -/

/-- The C `isspace` on the characters that occur in config files. -/
def isspaceChar (c : Char) : Bool :=
  c = ' ' || c = '\t' || c = '\n' || c = '\x0b' || c = '\x0c' || c = '\r'

/-- Strip leading whitespace. -/
def trimLeft (l : List Char) : List Char := l.dropWhile isspaceChar

/-- Strip trailing whitespace. -/
def trimRight (l : List Char) : List Char :=
  (l.reverse.dropWhile isspaceChar).reverse

/-- The delimiter scan of miniargv.c line 247:
`while (*p && *p != '=' && *p != ':' && *p != '#' && *p != ';') p++`,
returning the text before the first delimiter and the rest of the line
starting at the delimiter (empty when no delimiter occurs). -/
def scanToDelim : List Char → List Char × List Char
  | [] => ([], [])
  | c :: rest =>
    if c = '=' ∨ c = ':' ∨ c = '#' ∨ c = ';' then ([], c :: rest)
    else
      let p := scanToDelim rest
      (c :: p.1, p.2)

/-- The definition scan of miniargv.c lines 266-275: first entry with a
long name such that `strncmp(varname, longarg, varnamelen) == 0`, i.e.
the trimmed key is a prefix of the long name; invoke its callback and
report the callback's status. -/
def cfgScanDefs {σ : Type} (cbe : EnvCb σ) (key value : List Char) :
    List miniargv_definition → Nat → σ → Int × List EnvEvent × σ
  | [], _, s => (0, [], s)
  | d :: ds, idx, s =>
    match d.longarg with
    | none => cfgScanDefs cbe key value ds (idx + 1) s
    | some name =>
      if key.isPrefixOf name then
        let rs := cbe s idx value
        (rs.1, [⟨idx, value⟩], rs.2)
      else cfgScanDefs cbe key value ds (idx + 1) s

/-- Processing of one logical config line (miniargv.c lines 240-276):
skip leading whitespace; scan to the first of `=`, `:`, `#`, `;` or end
of line; only when the delimiter is `=` or `:` and the
whitespace-trimmed key is non-empty, trim the value on both sides and
run the definition scan.  Returns the status produced by the line (`0`
when no callback ran). -/
def processCfgLine {σ : Type} (cfgdef : List miniargv_definition)
    (cbe : EnvCb σ) (line : List Char) (s : σ) : Int × List EnvEvent × σ :=
  let varname0 := trimLeft line
  match varname0 with
  | [] => (0, [], s)
  | _ :: _ =>
    let sc := scanToDelim varname0
    match sc.2 with
    | [] => (0, [], s)
    | c :: valueRaw =>
      if c = '=' ∨ c = ':' then
        let key := trimRight sc.1
        match key with
        | [] => (0, [], s)
        | _ :: _ =>
          let value := trimRight (trimLeft valueRaw)
          cfgScanDefs cbe key value cfgdef 0 s
      else (0, [], s)

/-- `miniargv_process_cfgfile` (miniargv.c lines 226-284), with the file
modelled as its list of logical lines (the output of `readline`): lines
are processed while `status == 0`; a non-zero callback status stops the
loop, but the function then executes `return 0;` (line 283), so the
returned value is `0` unconditionally. -/
def miniargv_process_cfgfile {σ : Type} (lines : List (List Char))
    (cfgdef : List miniargv_definition) (cbe : EnvCb σ) (s : σ) :
    EnvResult σ :=
  match lines with
  | [] => ⟨0, [], s⟩
  | line :: rest =>
    let r := processCfgLine cfgdef cbe line s
    if r.1 = 0 then
      let r2 := miniargv_process_cfgfile rest cfgdef cbe r.2.2
      ⟨r2.ret, r.2.1 ++ r2.events, r2.state⟩
    else ⟨0, r.2.1, r.2.2⟩

/-! ### Predefined callbacks (miniargv.c lines 547-604)

The `int` / `long` variables pointed to by `userdata` are modelled as
unbounded `Int` (the claims are about the direction of the change by
one, not about machine overflow).  Each function returns the new value
of the variable together with the C return code. -/

/-- `miniargv_cb_increment_int` (miniargv.c lines 547-551): executes
`(*((int*)argdef->userdata))++; return 0;`. -/
def miniargv_cb_increment_int (userdata : Int) : Int × Int :=
  (userdata + 1, 0)

/-- `miniargv_cb_decrement_int` (miniargv.c lines 553-557): executes
`(*((int*)argdef->userdata))--; return 0;`. -/
def miniargv_cb_decrement_int (userdata : Int) : Int × Int :=
  (userdata - 1, 0)

/-- `miniargv_cb_increment_long` (miniargv.c lines 594-598): its body
executes `(*((long*)argdef->userdata))--; return 0;` (a decrement,
despite the function's name and its header documentation). -/
def miniargv_cb_increment_long (userdata : Int) : Int × Int :=
  (userdata - 1, 0)

/-- `miniargv_cb_decrement_long` (miniargv.c lines 600-604): its body
executes `(*((long*)argdef->userdata))++; return 0;` (an increment,
despite the function's name and its header documentation). -/
def miniargv_cb_decrement_long (userdata : Int) : Int × Int :=
  (userdata + 1, 0)

/-- Modelled from the spec: the header documentation of
`miniargv_cb_increment_long` says it increments the long integer pointed
to by `userdata`, i.e. replaces the value `x` by `x + 1`. -/
def documentedIncrement (userdata : Int) : Int := userdata + 1

/-- Modelled from the spec: the header documentation of
`miniargv_cb_decrement_long` says it decrements the long integer pointed
to by `userdata`, i.e. replaces the value `x` by `x - 1`. -/
def documentedDecrement (userdata : Int) : Int := userdata - 1

/-! ### Event selectors and trivial callback behaviours -/

/-- The cursor position of a definition-callback event (`none` for
bad-argument handler events); `events.filterMap defcbPos` is the list of
positions at which definition callbacks fired, in invocation order. -/
def defcbPos : ArgEvent → Option Nat
  | .defcb p _ _ => some p
  | .badcb _ _ => none

/-- Whether an event is a bad-argument handler invocation. -/
def ArgEvent.isBad : ArgEvent → Bool
  | .defcb _ _ _ => false
  | .badcb _ _ => true

/-- A definition callback that always succeeds and leaves the caller
state unchanged. -/
def zeroCb : Cb Unit := fun s _ _ => (0, s)

/-- A bad-argument handler that always succeeds. -/
def zeroBad : BadCb Unit := fun s _ => (0, s)

/-- An environment callback that always succeeds. -/
def zeroEnvCb : EnvCb Unit := fun s _ _ => (0, s)

/-! ### Specification-side reference definitions -/

/-- Modelled from the spec (the claim's wording, with the key comparison
as the code performs it): the callback invocations the environment
resolver owes to one definition `idx` with long name `name` — one per
`KEY=VALUE` pair whose key is a prefix of `name`, in input order, with
the text after the first `=` as the value. -/
def envDefEvents (idx : Nat) (name : List Char) (env : List (List Char)) :
    List EnvEvent :=
  env.filterMap (fun pair =>
    match splitEq pair with
    | none => none
    | some kv => if kv.1.isPrefixOf name then some ⟨idx, kv.2⟩ else none)

/-- Modelled from the spec: all callback invocations the environment
resolver owes to the whole table — for each definition with a long name,
in table order, the invocations of `envDefEvents`. -/
def envSpecEvents (envdef : List miniargv_definition)
    (env : List (List Char)) : List EnvEvent :=
  go envdef 0
where
  go : List miniargv_definition → Nat → List EnvEvent
  | [], _ => []
  | d :: ds, idx =>
    (match d.longarg with
     | none => []
     | some name => envDefEvents idx name env) ++ go ds (idx + 1)

/-- Modelled from the spec: drive a list of owed callback invocations
through the caller's callback in order, stopping at the first invocation
whose return code is non-zero and reporting that code (`0` when every
invocation succeeds). -/
def runEnvEvents {σ : Type} (cbe : EnvCb σ) (s : σ) :
    List EnvEvent → EnvResult σ
  | [] => ⟨0, [], s⟩
  | e :: rest =>
    let rs := cbe s e.idx e.value
    if rs.1 = 0 then
      let r2 := runEnvEvents cbe rs.2 rest
      ⟨r2.ret, e :: r2.events, r2.state⟩
    else ⟨rs.1, [e], rs.2⟩

/-- A token is a standalone hit when the classifier sends it to the
standalone branch (it does not consist of `-` followed by at least one
more character) and the table contains a standalone-value definition:
exactly the situation in which the values pass dispatches a positional
callback and the find-only pass returns the token's index. -/
def standaloneHit (argdef : List miniargv_definition) (tok : List Char) : Bool :=
  (match tok with
   | c1 :: _ :: _ => c1 != '-'
   | _ => true) && (findFirstIdx standalonePred argdef).isSome

/-- The external iteration over positional values: repeatedly call the
find-only query (with trivially succeeding callbacks) starting at cursor
`i`, collecting the returned indices until the query stops returning a
plausible token index.  The guard is shown elsewhere to hold exactly
when the query returns a positive index. -/
def paramFrom (argv : List (List Char)) (argdef : List miniargv_definition)
    (i : Nat) : List Nat :=
  let r := (processLoop FLAG_FIND_VALUE zeroCb (some zeroBad) argv argdef i ()).ret
  if h : 0 < r ∧ r.toNat < argv.length ∧ i ≤ r.toNat then
    r.toNat :: paramFrom argv argdef (r.toNat + 1)
  else []
termination_by argv.length - i
decreasing_by omega

/-! ### Concrete tables and inputs used by the spec's examples -/

/-- The `-o` / `--output` definition of the spec's example (takes a value). -/
def exOutputDef : miniargv_definition := ⟨some 'o', some ("output".toList), true⟩

/-- The `-v` / `--verbose` definition of the spec's example (no value). -/
def exVerboseDef : miniargv_definition := ⟨some 'v', some ("verbose".toList), false⟩

/-- The positional definition of the spec's example. -/
def exParamDef : miniargv_definition := ⟨none, none, true⟩

/-- The spec's example table. -/
def exTable : List miniargv_definition := [exOutputDef, exVerboseDef, exParamDef]

/-- The spec's example input `["-v", "-oresult.txt", "input.txt"]`, with
the conventional program name at index 0. -/
def exArgv5 : List (List Char) :=
  [("prog".toList), ("-v".toList), ("-oresult.txt".toList), ("input.txt".toList)]

/-- The spec's example input `["-x"]`, with the program name at index 0. -/
def exArgv6 : List (List Char) := [("prog".toList), ("-x".toList)]

/-- An environment definition whose long name is `AB`. -/
def envPrefixDef : miniargv_definition := ⟨none, some ("AB".toList), true⟩

/-- An environment input whose single pair has key `A` — not equal to the
long name `AB`, but a prefix of it. -/
def envPrefixInput : List (List Char) := [("A=x".toList)]

/-- A config definition whose long name is `key`. -/
def cfgKeyDef : miniargv_definition := ⟨none, some ("key".toList), true⟩

/-- A two-line config file assigning `key` twice. -/
def cfgLines : List (List Char) := [("key = 1".toList), ("key = 2".toList)]

/-- An environment / config callback that always returns the error code 7. -/
def sevenEnvCb : EnvCb Unit := fun s _ _ => (7, s)

/-! ## Basic lemmas about array access and the table scan -/

theorem nth_eq_none_of_le {α : Type} (l : List α) (n : Nat)
    (h : l.length ≤ n) : nth l n = none := by
  simp only [nth]
  exact List.get?_eq_none.mpr h

theorem lt_length_of_nth_some {α : Type} {l : List α} {n : Nat} {a : α}
    (h : nth l n = some a) : n < l.length := by
  simp only [nth] at h
  obtain ⟨hlt, -⟩ := List.get?_eq_some.mp h
  exact hlt

/-- `findFirstIdx` returns the first entry satisfying `p`: the entry is in
the table at the returned index, it satisfies `p`, and no earlier entry
does. -/
theorem findFirstIdx_spec {p : miniargv_definition → Bool} :
    ∀ {l : List miniargv_definition} {j : Nat} {d : miniargv_definition},
      findFirstIdx p l = some (j, d) →
      nth l j = some d ∧ p d = true ∧
        ∀ k e, k < j → nth l k = some e → p e = false := by
  intro l
  induction l with
  | nil => intro j d h; exact absurd h (by simp [findFirstIdx])
  | cons a l ih =>
    intro j d h
    simp only [findFirstIdx] at h
    by_cases hp : p a = true
    · rw [if_pos hp] at h
      simp only [Option.some.injEq, Prod.mk.injEq] at h
      obtain ⟨rfl, rfl⟩ := h
      exact ⟨rfl, hp, fun k e hk _ => absurd hk (Nat.not_lt_zero k)⟩
    · rw [if_neg hp] at h
      cases hf : findFirstIdx p l with
      | none => rw [hf] at h; cases h
      | some x =>
        obtain ⟨j0, d0⟩ := x
        rw [hf] at h
        simp only [Option.map_some', Option.some.injEq, Prod.mk.injEq] at h
        obtain ⟨rfl, rfl⟩ := h
        obtain ⟨hn, hpd, hmin⟩ := ih hf
        refine ⟨hn, hpd, ?_⟩
        intro k e hk hke
        cases k with
        | zero =>
          simp only [nth, List.get?] at hke
          injection hke with hke
          subst hke
          exact Bool.eq_false_iff.mpr hp
        | succ m =>
          exact hmin m e (by omega) hke

/-! ## Unfolding equations for the traversal loop -/

theorem processLoop_none {σ : Type} (fl : MiniargvFlags) (cb : Cb σ)
    (bad : Option (BadCb σ)) (argv : List (List Char))
    (argdef : List miniargv_definition) (i : Nat) (s : σ)
    (h : nth argv i = none) :
    processLoop fl cb bad argv argdef i s = ⟨0, [], s⟩ := by
  rw [processLoop]
  split
  · rfl
  · rename_i tok heq
    rw [h] at heq
    cases heq

theorem processLoop_some {σ : Type} (fl : MiniargvFlags) (cb : Cb σ)
    (bad : Option (BadCb σ)) (argv : List (List Char))
    (argdef : List miniargv_definition) (i : Nat) (tok : List Char) (s : σ)
    (h : nth argv i = some tok) :
    processLoop fl cb bad argv argdef i s =
      (match processStep fl cb bad argv argdef i tok s with
       | .cont evs s2 extra =>
         withEvents evs
           (processLoop fl cb bad argv argdef (i + (if extra then 2 else 1)) s2)
       | .halt ret evs s2 => ⟨ret, evs, s2⟩) := by
  conv_lhs => rw [processLoop]
  split
  · rename_i heq
    rw [h] at heq
    cases heq
  · rename_i tok2 heq
    rw [h] at heq
    cases heq
    rfl

/-! ## Shape and origin of the events of one iteration -/

/-- A successful iteration records at most one definition-callback
invocation, at the cursor position (one past it when a separate value
token was consumed). -/
theorem matchTok_ok_evs {σ : Type} {fl : MiniargvFlags} {cb : Cb σ}
    {argv : List (List Char)} {argdef : List miniargv_definition}
    {i : Nat} {tok : List Char} {s : σ} {evs : List ArgEvent} {s2 : σ}
    {extra : Bool}
    (h : matchTok fl cb argv argdef i tok s = .ok evs s2 extra) :
    evs = [] ∨ ∃ j v, evs = [ArgEvent.defcb (if extra then i + 1 else i) j v] := by
  unfold matchTok standaloneCase tryCallback at h
  repeat' split at h
  all_goals cases h
  all_goals simp

/-- A failed iteration records at most one definition-callback invocation,
at the cursor position (one past it when a separate value token was
consumed). -/
theorem matchTok_nomatch_evs {σ : Type} {fl : MiniargvFlags} {cb : Cb σ}
    {argv : List (List Char)} {argdef : List miniargv_definition}
    {i : Nat} {tok : List Char} {s : σ} {evs : List ArgEvent} {s2 : σ}
    {adv : Bool} {btok : List Char}
    (h : matchTok fl cb argv argdef i tok s = .unmatched evs s2 adv btok) :
    evs = [] ∨ ∃ j v, evs = [ArgEvent.defcb (if adv then i + 1 else i) j v] := by
  unfold matchTok standaloneCase tryCallback at h
  repeat' split at h
  all_goals cases h
  all_goals simp

/-- A non-match with the cursor already advanced only arises in the
space-separated short-flag form, so the bad token is `argv[i+1]`. -/
theorem matchTok_nomatch_adv {σ : Type} {fl : MiniargvFlags} {cb : Cb σ}
    {argv : List (List Char)} {argdef : List miniargv_definition}
    {i : Nat} {tok : List Char} {s : σ} {evs : List ArgEvent} {s2 : σ}
    {btok : List Char}
    (h : matchTok fl cb argv argdef i tok s = .unmatched evs s2 true btok) :
    nth argv (i + 1) = some btok := by
  unfold matchTok standaloneCase tryCallback at h
  repeat' split at h
  all_goals cases h
  all_goals simp_all

/-- Every definition-callback invocation of one iteration goes to an entry
found by one of the three scans: the short or long scan (only when the
flags bit is set), or the standalone scan (only when the values bit is
set and find-only mode is off). -/
theorem matchTok_defcb_origin {σ : Type} (fl : MiniargvFlags) (cb : Cb σ)
    (argv : List (List Char)) (argdef : List miniargv_definition)
    (i : Nat) (tok : List Char) (s : σ) (out : MatchOut σ)
    (hout : matchTok fl cb argv argdef i tok s = out) :
    ∀ p j v, ArgEvent.defcb p j v ∈ out.events →
    (∃ c d, findFirstIdx (shortPred c) argdef = some (j, d) ∧
       fl.fflags = true) ∨
    (∃ r2 d name, findFirstIdx (longPred r2) argdef = some (j, d) ∧
       d.longarg = some name ∧ fl.fflags = true) ∨
    (∃ d, findFirstIdx standalonePred argdef = some (j, d) ∧
       fl.fvalues = true ∧ fl.ffind = false) := by
  unfold matchTok standaloneCase tryCallback at hout
  repeat' split at hout
  all_goals subst hout
  all_goals intro p j v hm
  all_goals simp only [MatchOut.events, List.mem_singleton, List.not_mem_nil,
    ArgEvent.defcb.injEq] at hm
  all_goals obtain ⟨rfl, rfl, rfl⟩ := hm
  all_goals first
    | (rename findFirstIdx standalonePred _ = some _ => hs
       exact Or.inr (Or.inr ⟨_, hs, by simp_all, by simp_all⟩))
    | (rename findFirstIdx (shortPred _) _ = some _ => hs
       exact Or.inl ⟨_, _, hs, by simp_all⟩)
    | (rename findFirstIdx (longPred _) _ = some _ => hs
       rename miniargv_definition.longarg _ = some _ => hl
       exact Or.inr (Or.inl ⟨_, _, _, hs, hl, by simp_all⟩))

/-! ## Step-level lemmas -/

/-- Definition-callback events of a full step all come from the matching
part (the appended bad-argument handler event is not one). -/
theorem processStep_defcb_mem {σ : Type} {fl : MiniargvFlags} {cb : Cb σ}
    {bad : Option (BadCb σ)} {argv : List (List Char)}
    {argdef : List miniargv_definition} {i : Nat} {tok : List Char} {s : σ}
    {st : StepOut σ}
    (hout : processStep fl cb bad argv argdef i tok s = st) :
    ∀ p j v, ArgEvent.defcb p j v ∈ st.events →
      ArgEvent.defcb p j v ∈ (matchTok fl cb argv argdef i tok s).events := by
  intro p j v hm
  unfold processStep at hout
  cases hmt : matchTok fl cb argv argdef i tok s with
  | ok evs2 s3 extra2 =>
    rw [hmt] at hout
    subst hout
    simpa [StepOut.events, MatchOut.events] using hm
  | found =>
    rw [hmt] at hout
    subst hout
    simp [StepOut.events] at hm
  | unmatched evs2 s3 adv2 btok2 =>
    rw [hmt] at hout
    cases bad with
    | none =>
      dsimp only at hout
      split at hout <;>
        (subst hout
         simpa [StepOut.events, MatchOut.events] using hm)
    | some f =>
      dsimp only at hout
      by_cases hf : (f s3 btok2).1 = 0
      · rw [if_pos hf] at hout
        subst hout
        simp only [StepOut.events, List.mem_append, List.mem_singleton] at hm
        rcases hm with hm | hm
        · simpa [MatchOut.events] using hm
        · cases hm
      · rw [if_neg hf] at hout
        split at hout <;>
          (subst hout
           simp only [StepOut.events, List.mem_append, List.mem_singleton] at hm
           rcases hm with hm | hm
           · simpa [MatchOut.events] using hm
           · cases hm)

/-- A continuing step records at most one definition-callback invocation,
at a position within the tokens the iteration consumed. -/
theorem processStep_cont_defcbPos {σ : Type} {fl : MiniargvFlags}
    {cb : Cb σ} {bad : Option (BadCb σ)} {argv : List (List Char)}
    {argdef : List miniargv_definition} {i : Nat} {tok : List Char} {s : σ}
    {evs : List ArgEvent} {s2 : σ} {extra : Bool}
    (hout : processStep fl cb bad argv argdef i tok s = .cont evs s2 extra) :
    evs.filterMap defcbPos = [] ∨
      ∃ q, evs.filterMap defcbPos = [q] ∧ i ≤ q ∧
        q < i + (if extra then 2 else 1) := by
  unfold processStep at hout
  cases hmt : matchTok fl cb argv argdef i tok s with
  | ok evs2 s3 extra2 =>
    rw [hmt] at hout
    cases hout
    rcases matchTok_ok_evs hmt with h0 | ⟨j, v, h1⟩
    · exact Or.inl (by simp [h0])
    · refine Or.inr ⟨(if extra = true then i + 1 else i),
        by simp [h1, defcbPos], ?_, ?_⟩ <;> (split <;> omega)
  | found =>
    rw [hmt] at hout
    cases hout
  | unmatched evs2 s3 adv2 btok2 =>
    rw [hmt] at hout
    cases bad with
    | none =>
      dsimp only at hout
      split at hout <;> cases hout
    | some f =>
      dsimp only at hout
      by_cases hf : (f s3 btok2).1 = 0
      · rw [if_pos hf] at hout
        cases hout
        rcases matchTok_nomatch_evs hmt with h0 | ⟨j, v, h1⟩
        · exact Or.inl (by simp [h0, defcbPos])
        · refine Or.inr ⟨(if extra = true then i + 1 else i),
            by simp [h1, defcbPos], ?_, ?_⟩ <;> (split <;> omega)
      · rw [if_neg hf] at hout
        split at hout <;> cases hout

/-- A halting step records at most one definition-callback invocation, at
or after the cursor. -/
theorem processStep_halt_defcbPos {σ : Type} {fl : MiniargvFlags}
    {cb : Cb σ} {bad : Option (BadCb σ)} {argv : List (List Char)}
    {argdef : List miniargv_definition} {i : Nat} {tok : List Char} {s : σ}
    {r : Int} {evs : List ArgEvent} {s2 : σ}
    (hout : processStep fl cb bad argv argdef i tok s = .halt r evs s2) :
    evs.filterMap defcbPos = [] ∨
      ∃ q, evs.filterMap defcbPos = [q] ∧ i ≤ q := by
  unfold processStep at hout
  cases hmt : matchTok fl cb argv argdef i tok s with
  | ok evs2 s3 extra2 =>
    rw [hmt] at hout
    cases hout
  | found =>
    rw [hmt] at hout
    cases hout
    exact Or.inl rfl
  | unmatched evs2 s3 adv2 btok2 =>
    rw [hmt] at hout
    have hcore : evs2.filterMap defcbPos = [] ∨
        ∃ q, evs2.filterMap defcbPos = [q] ∧ i ≤ q := by
      rcases matchTok_nomatch_evs hmt with h0 | ⟨j, v, h1⟩
      · exact Or.inl (by simp [h0, defcbPos])
      · refine Or.inr ⟨(if adv2 = true then i + 1 else i),
          by simp [h1, defcbPos], ?_⟩
        split <;> omega
    cases bad with
    | none =>
      dsimp only at hout
      split at hout <;> (cases hout; exact hcore)
    | some f =>
      dsimp only at hout
      by_cases hf : (f s3 btok2).1 = 0
      · rw [if_pos hf] at hout
        cases hout
      · rw [if_neg hf] at hout
        have hb : (evs2 ++
            [ArgEvent.badcb (if adv2 = true then i + 1 else i) btok2]).filterMap
              defcbPos = evs2.filterMap defcbPos := by
          simp [defcbPos]
        split at hout <;> (cases hout; rw [hb]; exact hcore)

/-- Outside find-only mode, a halting step returns the index of an
existing input token (the failing token's index). -/
theorem processStep_halt_ret {σ : Type} {fl : MiniargvFlags} {cb : Cb σ}
    {bad : Option (BadCb σ)} {argv : List (List Char)}
    {argdef : List miniargv_definition} {i : Nat} {tok : List Char} {s : σ}
    {r : Int} {evs : List ArgEvent} {s2 : σ}
    (hfind : fl.ffind = false) (hi : i < argv.length)
    (hout : processStep fl cb bad argv argdef i tok s = .halt r evs s2) :
    ∃ b : Nat, r = Int.ofNat b ∧ i ≤ b ∧ b < argv.length := by
  unfold processStep at hout
  cases hmt : matchTok fl cb argv argdef i tok s with
  | ok evs2 s3 extra2 =>
    rw [hmt] at hout
    cases hout
  | found =>
    rw [hmt] at hout
    cases hout
    exact ⟨i, rfl, Nat.le_refl i, hi⟩
  | unmatched evs2 s3 adv2 btok2 =>
    rw [hmt] at hout
    have hble : (if adv2 = true then i + 1 else i) < argv.length := by
      cases adv2
      · simpa using hi
      · simpa using lt_length_of_nth_some (matchTok_nomatch_adv hmt)
    cases bad with
    | none =>
      dsimp only at hout
      split at hout
      · simp_all
      · cases hout
        exact ⟨_, rfl, by split <;> omega, hble⟩
    | some f =>
      dsimp only at hout
      by_cases hf : (f s3 btok2).1 = 0
      · rw [if_pos hf] at hout
        cases hout
      · rw [if_neg hf] at hout
        split at hout
        · simp_all
        · cases hout
          exact ⟨_, rfl, by split <;> omega, hble⟩

/-! ## Loop-level lemmas -/

/-- Definition callbacks fire at positions at or after the starting
cursor, in strictly increasing position order. -/
theorem processLoop_defcbPos_chain :
    ∀ (n : Nat) {σ : Type} (fl : MiniargvFlags) (cb : Cb σ)
      (bad : Option (BadCb σ)) (argv : List (List Char))
      (argdef : List miniargv_definition) (i : Nat) (s : σ),
      argv.length - i ≤ n →
      (∀ q ∈ (processLoop fl cb bad argv argdef i s).events.filterMap defcbPos,
          i ≤ q) ∧
        List.Chain' (· < ·)
          ((processLoop fl cb bad argv argdef i s).events.filterMap defcbPos) := by
  intro n
  induction n with
  | zero =>
    intro σ fl cb bad argv argdef i s hn
    rw [processLoop_none fl cb bad argv argdef i s
      (nth_eq_none_of_le argv i (by omega))]
    simp
  | succ m ih =>
    intro σ fl cb bad argv argdef i s hn
    cases hx : nth argv i with
    | none =>
      rw [processLoop_none fl cb bad argv argdef i s hx]
      simp
    | some tok =>
      have hi : i < argv.length := lt_length_of_nth_some hx
      rw [processLoop_some fl cb bad argv argdef i tok s hx]
      cases hst : processStep fl cb bad argv argdef i tok s with
      | cont evs s2 extra =>
        have hnext : argv.length - (i + (if extra then 2 else 1)) ≤ m := by
          split <;> omega
        have hik : i + 1 ≤ i + (if extra then 2 else 1) := by split <;> omega
        obtain ⟨ihb, ihc⟩ :=
          ih fl cb bad argv argdef (i + (if extra then 2 else 1)) s2 hnext
        simp only [withEvents, List.filterMap_append]
        rcases processStep_cont_defcbPos hst with h0 | ⟨q, hq, hiq, hqlt⟩
        · rw [h0, List.nil_append]
          exact ⟨fun q hq2 => by have := ihb q hq2; omega, ihc⟩
        · rw [hq, List.singleton_append]
          refine ⟨?_, ?_⟩
          · intro q2 hq2
            rcases List.mem_cons.mp hq2 with rfl | hmem
            · exact hiq
            · have := ihb q2 hmem
              omega
          · rw [List.chain'_cons']
            refine ⟨?_, ihc⟩
            intro y hy
            have := ihb y (List.mem_of_mem_head? hy)
            omega
      | halt r evs s2 =>
        dsimp only
        rcases processStep_halt_defcbPos hst with h0 | ⟨q, hq, hiq⟩
        · rw [h0]
          simp
        · rw [hq]
          exact ⟨fun q2 hq2 => by
              rcases List.mem_singleton.mp hq2 with rfl
              exact hiq,
            List.chain'_singleton q⟩

/-- Every definition-callback event of a traversal originates from one of
the three table scans, under the mode bits that allow it. -/
theorem processLoop_defcb_origin :
    ∀ (n : Nat) {σ : Type} (fl : MiniargvFlags) (cb : Cb σ)
      (bad : Option (BadCb σ)) (argv : List (List Char))
      (argdef : List miniargv_definition) (i : Nat) (s : σ),
      argv.length - i ≤ n →
      ∀ p j v,
        ArgEvent.defcb p j v ∈ (processLoop fl cb bad argv argdef i s).events →
        (∃ c d, findFirstIdx (shortPred c) argdef = some (j, d) ∧
           fl.fflags = true) ∨
        (∃ r2 d name, findFirstIdx (longPred r2) argdef = some (j, d) ∧
           d.longarg = some name ∧ fl.fflags = true) ∨
        (∃ d, findFirstIdx standalonePred argdef = some (j, d) ∧
           fl.fvalues = true ∧ fl.ffind = false) := by
  intro n
  induction n with
  | zero =>
    intro σ fl cb bad argv argdef i s hn p j v hm
    rw [processLoop_none fl cb bad argv argdef i s
      (nth_eq_none_of_le argv i (by omega))] at hm
    simp at hm
  | succ m ih =>
    intro σ fl cb bad argv argdef i s hn p j v hm
    cases hx : nth argv i with
    | none =>
      rw [processLoop_none fl cb bad argv argdef i s hx] at hm
      simp at hm
    | some tok =>
      have hi : i < argv.length := lt_length_of_nth_some hx
      rw [processLoop_some fl cb bad argv argdef i tok s hx] at hm
      cases hst : processStep fl cb bad argv argdef i tok s with
      | cont evs s2 extra =>
        rw [hst] at hm
        simp only [withEvents, List.mem_append] at hm
        rcases hm with hm | hm
        · exact matchTok_defcb_origin fl cb argv argdef i tok s _ rfl p j v
            (processStep_defcb_mem hst p j v (by simpa [StepOut.events] using hm))
        · exact ih fl cb bad argv argdef (i + (if extra then 2 else 1)) s2
            (by split <;> omega) p j v hm
      | halt r evs s2 =>
        rw [hst] at hm
        exact matchTok_defcb_origin fl cb argv argdef i tok s _ rfl p j v
          (processStep_defcb_mem hst p j v (by simpa [StepOut.events] using hm))

/-- Outside find-only mode, a traversal returns `0` or the index of an
input token at or after the starting cursor. -/
theorem processLoop_ret_range :
    ∀ (n : Nat) {σ : Type} (fl : MiniargvFlags) (cb : Cb σ)
      (bad : Option (BadCb σ)) (argv : List (List Char))
      (argdef : List miniargv_definition) (i : Nat) (s : σ),
      fl.ffind = false → argv.length - i ≤ n →
      (processLoop fl cb bad argv argdef i s).ret = 0 ∨
        ∃ b : Nat, (processLoop fl cb bad argv argdef i s).ret = Int.ofNat b ∧
          i ≤ b ∧ b < argv.length := by
  intro n
  induction n with
  | zero =>
    intro σ fl cb bad argv argdef i s hfind hn
    rw [processLoop_none fl cb bad argv argdef i s
      (nth_eq_none_of_le argv i (by omega))]
    exact Or.inl rfl
  | succ m ih =>
    intro σ fl cb bad argv argdef i s hfind hn
    cases hx : nth argv i with
    | none =>
      rw [processLoop_none fl cb bad argv argdef i s hx]
      exact Or.inl rfl
    | some tok =>
      have hi : i < argv.length := lt_length_of_nth_some hx
      rw [processLoop_some fl cb bad argv argdef i tok s hx]
      cases hst : processStep fl cb bad argv argdef i tok s with
      | cont evs s2 extra =>
        have hrec := ih fl cb bad argv argdef (i + (if extra then 2 else 1)) s2
          hfind (by split <;> omega)
        simp only [withEvents]
        rcases hrec with h0 | ⟨b, hb, hib, hbl⟩
        · exact Or.inl h0
        · exact Or.inr ⟨b, hb, by omega, hbl⟩
      | halt r evs s2 =>
        obtain ⟨b, hb, hib, hbl⟩ := processStep_halt_ret hfind hi hst
        exact Or.inr ⟨b, hb, hib, hbl⟩

/-! ## Find-only mode lemmas -/

/-- With the flags bit clear and find-only mode on, one iteration never
invokes a definition callback and never changes the caller state. -/
theorem matchTok_find_pure {σ : Type} {fl : MiniargvFlags} {cb : Cb σ}
    {argv : List (List Char)} {argdef : List miniargv_definition}
    {i : Nat} {tok : List Char} {s : σ} {out : MatchOut σ}
    (hff : fl.fflags = false) (hfi : fl.ffind = true)
    (h : matchTok fl cb argv argdef i tok s = out) :
    (∃ extra, out = .ok [] s extra) ∨
      (∃ adv btok, out = .unmatched [] s adv btok) ∨ out = .found := by
  unfold matchTok standaloneCase tryCallback at h
  repeat' split at h
  all_goals subst h
  all_goals first
    | exact Or.inl ⟨_, rfl⟩
    | exact Or.inr (Or.inl ⟨_, _, rfl⟩)
    | exact Or.inr (Or.inr rfl)
    | simp_all

/-- Find-only queries without a bad-argument handler invoke no callback
at all and leave the caller state untouched. -/
theorem processLoop_find_nobad :
    ∀ (n : Nat) {σ : Type} (fl : MiniargvFlags) (cb : Cb σ)
      (argv : List (List Char)) (argdef : List miniargv_definition)
      (i : Nat) (s : σ),
      fl.fflags = false → fl.ffind = true → argv.length - i ≤ n →
      (processLoop fl cb none argv argdef i s).events = [] ∧
        (processLoop fl cb none argv argdef i s).state = s := by
  intro n
  induction n with
  | zero =>
    intro σ fl cb argv argdef i s hff hfi hn
    rw [processLoop_none fl cb none argv argdef i s
      (nth_eq_none_of_le argv i (by omega))]
    exact ⟨rfl, rfl⟩
  | succ m ih =>
    intro σ fl cb argv argdef i s hff hfi hn
    cases hx : nth argv i with
    | none =>
      rw [processLoop_none fl cb none argv argdef i s hx]
      exact ⟨rfl, rfl⟩
    | some tok =>
      have hi : i < argv.length := lt_length_of_nth_some hx
      rw [processLoop_some fl cb none argv argdef i tok s hx]
      rcases matchTok_find_pure hff hfi
          (rfl : matchTok fl cb argv argdef i tok s = _) with
        ⟨extra, hmo⟩ | ⟨adv, btok, hmo⟩ | hmo
      · rw [show processStep fl cb none argv argdef i tok s
            = .cont [] s extra by unfold processStep; rw [hmo]]
        have hrec := ih fl cb argv argdef (i + (if extra then 2 else 1)) s
          hff hfi (by split <;> omega)
        simpa [withEvents] using hrec
      · rw [show processStep fl cb none argv argdef i tok s
            = .halt (-1) [] s by unfold processStep; rw [hmo]; simp [hfi]]
        exact ⟨rfl, rfl⟩
      · rw [show processStep fl cb none argv argdef i tok s
            = .halt (Int.ofNat i) [] s by unfold processStep; rw [hmo]]
        exact ⟨rfl, rfl⟩

/-! ## Synchronisation of the values pass and the find-only pass -/

/-- A flag token (`-` followed by at least one character) is matched
reading only the flags bit of the mode, so two modes agreeing on that bit
treat it identically. -/
theorem matchTok_dash_mode {σ : Type} (fl1 fl2 : MiniargvFlags)
    (hf : fl1.fflags = fl2.fflags) (cb : Cb σ) (argv : List (List Char))
    (argdef : List miniargv_definition) (i : Nat) (c2 : Char)
    (rest : List Char) (s : σ) :
    matchTok fl1 cb argv argdef i ('-' :: c2 :: rest) s
      = matchTok fl2 cb argv argdef i ('-' :: c2 :: rest) s := by
  simp only [matchTok]
  rw [hf]
  simp

/-- With the flags bit clear, a flag token is processed without invoking
any callback and without touching the caller state. -/
theorem matchTok_dash_noflags_events {σ : Type} {fl : MiniargvFlags}
    {cb : Cb σ} {argv : List (List Char)} {argdef : List miniargv_definition}
    {i : Nat} {c2 : Char} {rest : List Char} {s : σ} {out : MatchOut σ}
    (hff : fl.fflags = false)
    (h : matchTok fl cb argv argdef i ('-' :: c2 :: rest) s = out) :
    (∃ extra, out = .ok [] s extra) ∨
      (∃ adv btok, out = .unmatched [] s adv btok) := by
  simp only [matchTok] at h
  rw [if_neg (show ¬(('-' : Char) ≠ '-') by simp)] at h
  unfold tryCallback at h
  repeat' split at h
  all_goals subst h
  all_goals first
    | exact Or.inl ⟨_, rfl⟩
    | exact Or.inr ⟨_, _, rfl⟩
    | (simp_all
       done)

/-- The standalone branch with the values bit set and find-only off runs
the callback dispatch on the standalone definition. -/
theorem standaloneCase_values {σ : Type} (cb : Cb σ)
    (argdef : List miniargv_definition) (i : Nat) (tok : List Char) (s : σ)
    {j : Nat} {d : miniargv_definition}
    (hscan : findFirstIdx standalonePred argdef = some (j, d)) :
    standaloneCase FLAG_VALUES cb argdef i tok s
      = tryCallback true cb s i j (some tok) false tok := by
  unfold standaloneCase
  rw [hscan]
  rfl

/-- The standalone branch in find-only mode returns the cursor. -/
theorem standaloneCase_find {σ : Type} (cb : Cb σ)
    (argdef : List miniargv_definition) (i : Nat) (tok : List Char) (s : σ)
    {j : Nat} {d : miniargv_definition}
    (hscan : findFirstIdx standalonePred argdef = some (j, d)) :
    standaloneCase FLAG_FIND_VALUE cb argdef i tok s = .found := by
  unfold standaloneCase
  rw [hscan]
  rfl

/-- A standalone hit takes the standalone branch of the classifier, and
the standalone definition exists. -/
theorem standaloneHit_true_elim {argdef : List miniargv_definition}
    {tok : List Char} (hhit : standaloneHit argdef tok = true) :
    (∃ j d, findFirstIdx standalonePred argdef = some (j, d)) ∧
      ∀ {σ : Type} (fl : MiniargvFlags) (cb : Cb σ)
        (argv : List (List Char)) (i : Nat) (s : σ),
        matchTok fl cb argv argdef i tok s
          = standaloneCase fl cb argdef i tok s := by
  unfold standaloneHit at hhit
  have hsome : (findFirstIdx standalonePred argdef).isSome = true := by
    rcases tok with _ | ⟨c1, _ | ⟨c2, rest⟩⟩
    · simpa using hhit
    · simpa using hhit
    · exact ((Bool.and_eq_true _ _).mp hhit).2
  obtain ⟨x, hx⟩ := Option.isSome_iff_exists.mp hsome
  refine ⟨⟨x.1, x.2, by rw [hx]⟩, ?_⟩
  intro σ fl cb argv i s
  rcases tok with _ | ⟨c1, _ | ⟨c2, rest⟩⟩
  · rfl
  · rfl
  · have hc1 : c1 ≠ '-' := by
      rcases (Bool.and_eq_true _ _).mp hhit with ⟨h1, -⟩
      simpa using h1
    simp only [matchTok]
    rw [if_pos hc1]

/-- A token that is not a standalone hit is a flag token, or the table
has no standalone definition and the token is rejected outright. -/
theorem standaloneHit_false_cases {argdef : List miniargv_definition}
    {tok : List Char} (hnohit : standaloneHit argdef tok = false) :
    (∃ c2 rest, tok = '-' :: c2 :: rest) ∨
      (findFirstIdx standalonePred argdef = none ∧
        ∀ {σ : Type} (fl : MiniargvFlags) (cb : Cb σ)
          (argv : List (List Char)) (i : Nat) (s : σ),
          matchTok fl cb argv argdef i tok s = .unmatched [] s false tok) := by
  unfold standaloneHit at hnohit
  rcases tok with _ | ⟨c1, _ | ⟨c2, rest⟩⟩
  · refine Or.inr ⟨?_, ?_⟩
    · simpa [Option.not_isSome_iff_eq_none] using hnohit
    · intro σ fl cb argv i s
      simp only [matchTok]
      unfold standaloneCase
      rw [show findFirstIdx standalonePred argdef = none by
        simpa [Option.not_isSome_iff_eq_none] using hnohit]
  · refine Or.inr ⟨?_, ?_⟩
    · simpa [Option.not_isSome_iff_eq_none] using hnohit
    · intro σ fl cb argv i s
      simp only [matchTok]
      unfold standaloneCase
      rw [show findFirstIdx standalonePred argdef = none by
        simpa [Option.not_isSome_iff_eq_none] using hnohit]
  · by_cases hc1 : c1 = '-'
    · exact Or.inl ⟨c2, rest, by rw [hc1]⟩
    · have hscan : findFirstIdx standalonePred argdef = none := by
        rw [← Option.not_isSome_iff_eq_none]
        intro hs
        rw [Bool.and_eq_false_iff] at hnohit
        rcases hnohit with h1 | h2
        · exact hc1 (by simpa using h1)
        · rw [hs] at h2
          cases h2
      refine Or.inr ⟨hscan, ?_⟩
      intro σ fl cb argv i s
      simp only [matchTok]
      rw [if_pos (show c1 ≠ '-' from hc1)]
      unfold standaloneCase
      rw [hscan]

/-- On a token that is not a standalone hit, the values pass and the
find-only pass (with trivially succeeding callbacks) take the same step,
and no definition callback fires. -/
theorem processStep_sync_nohit (argv : List (List Char))
    (argdef : List miniargv_definition) (i : Nat) (tok : List Char)
    (hnohit : standaloneHit argdef tok = false) :
    ∃ evs extra,
      processStep FLAG_VALUES zeroCb (some zeroBad) argv argdef i tok ()
        = .cont evs () extra ∧
      processStep FLAG_FIND_VALUE zeroCb (some zeroBad) argv argdef i tok ()
        = .cont evs () extra ∧
      evs.filterMap defcbPos = [] := by
  rcases standaloneHit_false_cases hnohit with ⟨c2, rest, rfl⟩ | ⟨hscan, hmt⟩
  · have heq := matchTok_dash_mode FLAG_VALUES FLAG_FIND_VALUE rfl zeroCb
      argv argdef i c2 rest ()
    have hself : matchTok FLAG_VALUES zeroCb argv argdef i ('-' :: c2 :: rest) ()
        = matchTok FLAG_VALUES zeroCb argv argdef i ('-' :: c2 :: rest) () := rfl
    rcases matchTok_dash_noflags_events rfl hself with
      ⟨extra, hmo⟩ | ⟨adv, btok, hmo⟩
    · have hmoF := heq.symm.trans hmo
      exact ⟨[], extra, by unfold processStep; rw [hmo],
        by unfold processStep; rw [hmoF], rfl⟩
    · have hmoF := heq.symm.trans hmo
      refine ⟨[ArgEvent.badcb (if adv then i + 1 else i) btok], adv, ?_, ?_,
        by simp [defcbPos]⟩
      · unfold processStep
        rw [hmo]
        simp [zeroBad]
      · unfold processStep
        rw [hmoF]
        simp [zeroBad]
  · refine ⟨[ArgEvent.badcb i tok], false, ?_, ?_, by simp [defcbPos]⟩
    · unfold processStep
      rw [hmt FLAG_VALUES zeroCb argv i ()]
      simp [zeroBad]
    · unfold processStep
      rw [hmt FLAG_FIND_VALUE zeroCb argv i ()]
      simp [zeroBad]

/-- On a standalone hit, the values pass dispatches the positional
callback and continues, while the find-only pass returns the cursor. -/
theorem processStep_sync_hit (argv : List (List Char))
    (argdef : List miniargv_definition) (i : Nat) (tok : List Char)
    (hhit : standaloneHit argdef tok = true) :
    ∃ j d, findFirstIdx standalonePred argdef = some (j, d) ∧
      processStep FLAG_VALUES zeroCb (some zeroBad) argv argdef i tok ()
        = .cont [ArgEvent.defcb i j (some tok)] () false ∧
      processStep FLAG_FIND_VALUE zeroCb (some zeroBad) argv argdef i tok ()
        = .halt (Int.ofNat i) [] () := by
  obtain ⟨⟨j, d, hscan⟩, hmt⟩ := standaloneHit_true_elim hhit
  refine ⟨j, d, hscan, ?_, ?_⟩
  · unfold processStep
    rw [hmt FLAG_VALUES zeroCb argv i (),
      standaloneCase_values zeroCb argdef i tok () hscan]
    simp [tryCallback, zeroCb]
  · unfold processStep
    rw [hmt FLAG_FIND_VALUE zeroCb argv i (),
      standaloneCase_find zeroCb argdef i tok () hscan]

/-- Unfolding equation of the positional-value iteration. -/
theorem paramFrom_eq (argv : List (List Char))
    (argdef : List miniargv_definition) (i : Nat) :
    paramFrom argv argdef i =
      (if h : 0 < (processLoop FLAG_FIND_VALUE zeroCb (some zeroBad) argv argdef i ()).ret ∧
          (processLoop FLAG_FIND_VALUE zeroCb (some zeroBad) argv argdef i ()).ret.toNat
            < argv.length ∧
          i ≤ (processLoop FLAG_FIND_VALUE zeroCb (some zeroBad) argv argdef i ()).ret.toNat
       then (processLoop FLAG_FIND_VALUE zeroCb (some zeroBad) argv argdef i ()).ret.toNat ::
         paramFrom argv argdef
           ((processLoop FLAG_FIND_VALUE zeroCb (some zeroBad) argv argdef i ()).ret.toNat + 1)
       else []) := by
  rw [paramFrom]

/-- With trivially succeeding callbacks, the find-only traversal from `i`
returns `0` or the index (at or after `i`) of a standalone hit. -/
theorem findRet_range :
    ∀ (n : Nat) (argv : List (List Char)) (argdef : List miniargv_definition)
      (i : Nat), argv.length - i ≤ n →
      (processLoop FLAG_FIND_VALUE zeroCb (some zeroBad) argv argdef i ()).ret = 0 ∨
        ∃ b tok,
          (processLoop FLAG_FIND_VALUE zeroCb (some zeroBad) argv argdef i ()).ret
            = Int.ofNat b ∧
          i ≤ b ∧ nth argv b = some tok ∧ standaloneHit argdef tok = true := by
  intro n
  induction n with
  | zero =>
    intro argv argdef i hn
    rw [processLoop_none _ _ _ _ _ _ _ (nth_eq_none_of_le argv i (by omega))]
    exact Or.inl rfl
  | succ m ih =>
    intro argv argdef i hn
    cases hx : nth argv i with
    | none =>
      rw [processLoop_none _ _ _ _ _ _ _ hx]
      exact Or.inl rfl
    | some tok =>
      have hi : i < argv.length := lt_length_of_nth_some hx
      rw [processLoop_some _ _ _ _ _ _ tok _ hx]
      cases hhit : standaloneHit argdef tok with
      | true =>
        obtain ⟨j, d, hscan, hsv, hsf⟩ := processStep_sync_hit argv argdef i tok hhit
        rw [hsf]
        exact Or.inr ⟨i, tok, rfl, Nat.le_refl i, hx, hhit⟩
      | false =>
        obtain ⟨evs, extra, hsv, hsf, hevs⟩ :=
          processStep_sync_nohit argv argdef i tok hhit
        rw [hsf]
        rcases ih argv argdef (i + (if extra then 2 else 1)) (by split <;> omega) with
          h0 | ⟨b, tok2, hb, hib, hnb, hhit2⟩
        · exact Or.inl (by simpa [withEvents] using h0)
        · exact Or.inr ⟨b, tok2, by simpa [withEvents] using hb, by omega, hnb, hhit2⟩

/-- The positional callbacks of the values pass fire exactly at the
indices the find-only iteration returns, in the same order. -/
theorem valuesPass_eq_paramFrom :
    ∀ (n : Nat) (argv : List (List Char)) (argdef : List miniargv_definition)
      (i : Nat), 1 ≤ i → argv.length - i ≤ n →
      (processLoop FLAG_VALUES zeroCb (some zeroBad) argv argdef i ()).events.filterMap
          defcbPos
        = paramFrom argv argdef i := by
  intro n
  induction n with
  | zero =>
    intro argv argdef i h1 hn
    rw [processLoop_none _ _ _ _ _ _ _ (nth_eq_none_of_le argv i (by omega)),
      paramFrom_eq,
      processLoop_none _ _ _ _ _ _ _ (nth_eq_none_of_le argv i (by omega))]
    simp
  | succ m ih =>
    intro argv argdef i h1 hn
    cases hx : nth argv i with
    | none =>
      rw [processLoop_none _ _ _ _ _ _ _ hx, paramFrom_eq,
        processLoop_none _ _ _ _ _ _ _ hx]
      simp
    | some tok =>
      have hi : i < argv.length := lt_length_of_nth_some hx
      cases hhit : standaloneHit argdef tok with
      | true =>
        obtain ⟨j, d, hscan, hsv, hsf⟩ := processStep_sync_hit argv argdef i tok hhit
        rw [processLoop_some _ _ _ _ _ _ tok _ hx, hsv]
        rw [paramFrom_eq, processLoop_some _ _ _ _ _ _ tok _ hx, hsf]
        have hguard : 0 < (Int.ofNat i) ∧ (Int.ofNat i).toNat < argv.length ∧
            i ≤ (Int.ofNat i).toNat := by
          refine ⟨Int.ofNat_pos.mpr (by omega), by simpa using hi, by simp⟩
        rw [dif_pos hguard]
        have hrec := ih argv argdef (i + 1) (by omega) (by omega)
        simp only [withEvents, List.filterMap_append]
        simp [defcbPos, hrec]
      | false =>
        obtain ⟨evs, extra, hsv, hsf, hevs⟩ :=
          processStep_sync_nohit argv argdef i tok hhit
        rw [processLoop_some _ _ _ _ _ _ tok _ hx, hsv]
        have hnext1 : 1 ≤ i + (if extra then 2 else 1) := by omega
        have hnextn : argv.length - (i + (if extra then 2 else 1)) ≤ m := by
          split <;> omega
        have hrec := ih argv argdef (i + (if extra then 2 else 1)) hnext1 hnextn
        have hretEq :
            (processLoop FLAG_FIND_VALUE zeroCb (some zeroBad) argv argdef i ()).ret
              = (processLoop FLAG_FIND_VALUE zeroCb (some zeroBad) argv argdef
                  (i + (if extra then 2 else 1)) ()).ret := by
          rw [processLoop_some _ _ _ _ _ _ tok _ hx, hsf]
          rfl
        have hpar : paramFrom argv argdef i
            = paramFrom argv argdef (i + (if extra then 2 else 1)) := by
          rw [paramFrom_eq argv argdef i,
            paramFrom_eq argv argdef (i + (if extra then 2 else 1)), hretEq]
          rcases findRet_range (argv.length) argv argdef
              (i + (if extra then 2 else 1)) (by omega) with h0 | ⟨b, tok2, hb, hib, hnb, -⟩
          · rw [h0]
            simp
          · have hblen : b < argv.length := lt_length_of_nth_some hnb
            rw [hb]
            have hg1 : 0 < (Int.ofNat b) ∧ (Int.ofNat b).toNat < argv.length ∧
                i ≤ (Int.ofNat b).toNat := by
              refine ⟨Int.ofNat_pos.mpr (by omega), by simpa using hblen,
                by simp; omega⟩
            have hg2 : 0 < (Int.ofNat b) ∧ (Int.ofNat b).toNat < argv.length ∧
                (i + (if extra then 2 else 1)) ≤ (Int.ofNat b).toNat := by
              refine ⟨hg1.1, hg1.2.1, by simpa using hib⟩
            rw [dif_pos hg1, dif_pos hg2]
        rw [hpar, ← hrec]
        simp only [withEvents, List.filterMap_append, hevs, List.nil_append]

/-! ## Environment resolver refinement -/

/-- Driving a concatenation of owed invocations runs the first part and,
when it succeeds, continues with the second. -/
theorem runEnvEvents_append {σ : Type} (cbe : EnvCb σ) :
    ∀ (a b : List EnvEvent) (s : σ),
      runEnvEvents cbe s (a ++ b)
        = (if (runEnvEvents cbe s a).ret = 0 then
            ⟨(runEnvEvents cbe (runEnvEvents cbe s a).state b).ret,
              (runEnvEvents cbe s a).events ++
                (runEnvEvents cbe (runEnvEvents cbe s a).state b).events,
              (runEnvEvents cbe (runEnvEvents cbe s a).state b).state⟩
          else runEnvEvents cbe s a) := by
  intro a
  induction a with
  | nil =>
    intro b s
    simp [runEnvEvents]
  | cons e rest ih =>
    intro b s
    simp only [List.cons_append, runEnvEvents]
    by_cases h : (cbe s e.idx e.value).1 = 0
    · rw [if_pos h, if_pos h]
      simp only [List.append_eq]
      rw [ih]
      by_cases h2 : (runEnvEvents cbe (cbe s e.idx e.value).2 rest).ret = 0
      · simp [h2]
      · simp [h2]
    · rw [if_neg h, if_neg h]
      simp [h]

/-- The inner per-definition environment loop is the sequential driver on
the owed invocations of that definition. -/
theorem processEnvDef_eq_run {σ : Type} (cbe : EnvCb σ) (idx : Nat)
    (name : List Char) :
    ∀ (env : List (List Char)) (s : σ),
      processEnvDef cbe idx name env s
        = runEnvEvents cbe s (envDefEvents idx name env) := by
  intro env
  induction env with
  | nil => intro s; rfl
  | cons pair rest ih =>
    intro s
    simp only [processEnvDef, envDefEvents, List.filterMap_cons]
    cases hsp : splitEq pair with
    | none => simpa [envDefEvents] using ih s
    | some kv =>
      by_cases hpre : kv.1.isPrefixOf name
      · simp only [hpre, if_pos rfl, reduceIte]
        by_cases hr : (cbe s idx kv.2).1 = 0
        · simp [runEnvEvents, hr, ih, envDefEvents]
        · simp [runEnvEvents, hr]
      · simpa [hpre, envDefEvents] using ih s

/-- The outer environment loop drives exactly the owed invocations of the
remainder of the table. -/
theorem processEnvGo_eq_run {σ : Type} (cbe : EnvCb σ) (env : List (List Char)) :
    ∀ (defs : List miniargv_definition) (idx : Nat) (s : σ),
      processEnvGo cbe env defs idx s
        = runEnvEvents cbe s (envSpecEvents.go env defs idx) := by
  intro defs
  induction defs with
  | nil => intro idx s; rfl
  | cons d ds ih =>
    intro idx s
    simp only [processEnvGo, envSpecEvents.go]
    cases hla : d.longarg with
    | none => simpa using ih (idx + 1) s
    | some name =>
      simp only
      rw [processEnvDef_eq_run, runEnvEvents_append]
      by_cases h : (runEnvEvents cbe s (envDefEvents idx name env)).ret = 0
      · simp [h, ih]
      · simp [h]

/-! ## Evaluation bridge -/

theorem processLoopF_eq :
    ∀ (fuel : Nat) {σ : Type} (fl : MiniargvFlags) (cb : Cb σ)
      (bad : Option (BadCb σ)) (argv : List (List Char))
      (argdef : List miniargv_definition) (i : Nat) (s : σ),
      argv.length - i ≤ fuel →
      processLoopF fuel fl cb bad argv argdef i s
        = processLoop fl cb bad argv argdef i s := by
  intro fuel
  induction fuel with
  | zero =>
    intro σ fl cb bad argv argdef i s hn
    rw [processLoop_none fl cb bad argv argdef i s
      (nth_eq_none_of_le argv i (by omega))]
    rfl
  | succ m ih =>
    intro σ fl cb bad argv argdef i s hn
    cases hx : nth argv i with
    | none =>
      rw [processLoop_none fl cb bad argv argdef i s hx]
      simp [processLoopF, hx]
    | some tok =>
      have hi : i < argv.length := lt_length_of_nth_some hx
      rw [processLoop_some fl cb bad argv argdef i tok s hx]
      simp only [processLoopF, hx]
      cases hst : processStep fl cb bad argv argdef i tok s with
      | cont evs s2 extra =>
        dsimp only
        rw [ih fl cb bad argv argdef (i + (if extra then 2 else 1)) s2
          (by split <;> omega)]
      | halt ret evs s2 => rfl

/-- Evaluation form of the loop. -/
theorem processLoop_eval {σ : Type} (fl : MiniargvFlags) (cb : Cb σ)
    (bad : Option (BadCb σ)) (argv : List (List Char))
    (argdef : List miniargv_definition) (i : Nat) (s : σ) :
    processLoop fl cb bad argv argdef i s
      = processLoopF argv.length fl cb bad argv argdef i s :=
  (processLoopF_eq argv.length fl cb bad argv argdef i s (by omega)).symm

/-- Evaluation form of the combined left-to-right pass. -/
theorem miniargv_process_arg_eval {σ : Type} (cb : Cb σ)
    (bad : Option (BadCb σ)) (argv : List (List Char))
    (argdef : List miniargv_definition) (s : σ) :
    miniargv_process_arg cb bad argv argdef s
      = processLoopF argv.length FLAG_BOTH cb bad argv argdef 1 s :=
  processLoop_eval FLAG_BOTH cb bad argv argdef 1 s

/-! ## Dispatch-step helpers -/

/-- An iteration whose matching part reached the callback dispatch
`tryCallback true cb s pos j v extra btok` (with no bad-argument handler
installed and outside find-only mode) invokes the callback of entry `j`
with value `v`; on return `0` the traversal continues past the consumed
tokens, otherwise it aborts at the current cursor. -/
theorem processLoop_tryCb {σ : Type} (fl : MiniargvFlags) (cb : Cb σ)
    (argv : List (List Char)) (argdef : List miniargv_definition)
    (i : Nat) (tok : List Char) (s : σ) (pos j : Nat)
    (v : Option (List Char)) (extra : Bool) (btok : List Char)
    (hfind : fl.ffind = false)
    (htok : nth argv i = some tok)
    (hmt : matchTok fl cb argv argdef i tok s
      = tryCallback true cb s pos j v extra btok) :
    processLoop fl cb none argv argdef i s
      = (if (cb s j v).1 = 0
         then withEvents [ArgEvent.defcb pos j v]
           (processLoop fl cb none argv argdef
             (i + (if extra then 2 else 1)) (cb s j v).2)
         else ⟨Int.ofNat (if extra then i + 1 else i),
           [ArgEvent.defcb pos j v], (cb s j v).2⟩) := by
  rw [processLoop_some fl cb none argv argdef i tok s htok]
  unfold processStep
  rw [hmt]
  unfold tryCallback
  by_cases hcb : (cb s j v).1 = 0
  · rw [if_pos hcb, if_pos hcb]
    rfl
  · rw [if_neg hcb, if_neg hcb]
    rw [hfind]
    cases extra <;> rfl

/-- An iteration whose matching part found nothing, with no bad-argument
handler installed and outside find-only mode, aborts returning the bad
token's index. -/
theorem processLoop_unmatched_nobad {σ : Type} (fl : MiniargvFlags)
    (cb : Cb σ) (argv : List (List Char))
    (argdef : List miniargv_definition) (i : Nat) (tok : List Char) (s : σ)
    (evs : List ArgEvent) (s2 : σ) (adv : Bool) (btok : List Char)
    (hfind : fl.ffind = false)
    (htok : nth argv i = some tok)
    (hmt : matchTok fl cb argv argdef i tok s = .unmatched evs s2 adv btok) :
    processLoop fl cb none argv argdef i s
      = ⟨Int.ofNat (if adv then i + 1 else i), evs, s2⟩ := by
  rw [processLoop_some fl cb none argv argdef i tok s htok]
  unfold processStep
  rw [hmt]
  rw [hfind]
  cases adv <;> rfl

/-- An iteration whose matching part found nothing, with a bad-argument
handler installed and outside find-only mode: the handler is invoked on
the bad token; on return `0` the traversal continues, otherwise it aborts
at the bad token's index. -/
theorem processLoop_unmatched_bad {σ : Type} (fl : MiniargvFlags)
    (cb : Cb σ) (f : BadCb σ) (argv : List (List Char))
    (argdef : List miniargv_definition) (i : Nat) (tok : List Char) (s : σ)
    (evs : List ArgEvent) (s2 : σ) (adv : Bool) (btok : List Char)
    (hfind : fl.ffind = false)
    (htok : nth argv i = some tok)
    (hmt : matchTok fl cb argv argdef i tok s = .unmatched evs s2 adv btok) :
    processLoop fl cb (some f) argv argdef i s
      = (if (f s2 btok).1 = 0
         then withEvents
           (evs ++ [ArgEvent.badcb (if adv then i + 1 else i) btok])
           (processLoop fl cb (some f) argv argdef
             (i + (if adv then 2 else 1)) (f s2 btok).2)
         else ⟨Int.ofNat (if adv then i + 1 else i),
           evs ++ [ArgEvent.badcb (if adv then i + 1 else i) btok],
           (f s2 btok).2⟩) := by
  rw [processLoop_some fl cb (some f) argv argdef i tok s htok]
  unfold processStep
  rw [hmt, hfind]
  dsimp only
  by_cases hb : (f s2 btok).1 = 0
  · cases adv <;> simp [hb]
  · cases adv <;> simp [hb]

/-- The classifier sends every token that does not begin with `-`, and
the token `-` by itself, to the standalone branch. -/
theorem matchTok_standalone_classify {σ : Type} (fl : MiniargvFlags)
    (cb : Cb σ) (argv : List (List Char))
    (argdef : List miniargv_definition) (i : Nat) (tok : List Char) (s : σ)
    (h : tok.head? ≠ some '-' ∨ tok = ['-']) :
    matchTok fl cb argv argdef i tok s
      = standaloneCase fl cb argdef i tok s := by
  rcases tok with _ | ⟨c1, _ | ⟨c2, rest⟩⟩
  · rfl
  · rfl
  · rcases h with h | h
    · have hc1 : c1 ≠ '-' := by simpa using h
      simp only [matchTok]
      rw [if_pos hc1]
    · cases h

/-- When every callback returns `0`, the sequential driver succeeds and
performs every owed invocation. -/
theorem runEnvEvents_allzero {σ : Type} (cbe : EnvCb σ)
    (hz : ∀ s2 i v, (cbe s2 i v).1 = 0) :
    ∀ (evs : List EnvEvent) (s : σ),
      (runEnvEvents cbe s evs).ret = 0 ∧
        (runEnvEvents cbe s evs).events = evs := by
  intro evs
  induction evs with
  | nil => intro s; exact ⟨rfl, rfl⟩
  | cons e rest ih =>
    intro s
    simp [runEnvEvents, hz, ih]

/-! ## Claims -/

/-- C10: the predefined callback `miniargv_cb_increment_long`, documented
as incrementing the long integer pointed to by `userdata`, in fact
decreases it by one, and `miniargv_cb_decrement_long`, documented as
decrementing it, in fact increases it by one — their bodies are swapped
relative to their names and documentation — while
`miniargv_cb_increment_int` and `miniargv_cb_decrement_int` respectively
increase and decrease the `int` by one, as named. -/
theorem claim_C10 (x : Int) :
    miniargv_cb_increment_long x = (x - 1, 0) ∧
    miniargv_cb_decrement_long x = (x + 1, 0) ∧
    miniargv_cb_increment_int x = (x + 1, 0) ∧
    miniargv_cb_decrement_int x = (x - 1, 0) ∧
    (miniargv_cb_increment_long x).1 = documentedDecrement x ∧
    (miniargv_cb_increment_long x).1 ≠ documentedIncrement x ∧
    (miniargv_cb_decrement_long x).1 = documentedIncrement x ∧
    (miniargv_cb_decrement_long x).1 ≠ documentedDecrement x ∧
    (miniargv_cb_increment_int x).1 = documentedIncrement x ∧
    (miniargv_cb_decrement_int x).1 = documentedDecrement x := by
  refine ⟨rfl, rfl, rfl, rfl, rfl, ?_, rfl, ?_, rfl, rfl⟩
  · show (x - 1 : Int) ≠ x + 1
    omega
  · show (x + 1 : Int) ≠ x - 1
    omega

/-- C9: when a callback invoked by `miniargv_process_cfgfile` returns
non-zero, no further lines are processed — but, contrary to the claim,
the error does not surface as the function's return value: the code
tracks the status only to stop the loop and then executes `return 0;`
(miniargv.c line 283).  On a two-line file whose callback always returns
`7`, only the first line's callback fires, and the call returns `0`,
not `7`. -/
theorem claim_C9 :
    miniargv_process_cfgfile cfgLines [cfgKeyDef] sevenEnvCb ()
      = ⟨0, [⟨0, ("1".toList)⟩], ()⟩ ∧
    (sevenEnvCb () 0 ("1".toList)).1 = 7 ∧
    ((7 : Int) ≠ 0) ∧
    cfgLines.length = 2 :=
  ⟨rfl, rfl, by decide, rfl⟩

/-- C8 (counterexample): `miniargv_process_env` invokes the callback of
the definition with long name `AB` on the pair `A=x`, whose key `A` is
not an exact match of `AB` (it is only a prefix), refuting the claim
that only exact key matches fire. -/
theorem claim_C8_counterexample :
    (miniargv_process_env envPrefixInput [envPrefixDef] zeroEnvCb ()).events
      = [⟨0, ("x".toList)⟩] ∧
    envPrefixDef.longarg = some ("AB".toList) ∧
    splitEq ("A=x".toList) = some (("A".toList), ("x".toList)) ∧
    ("A".toList) ≠ ("AB".toList) :=
  ⟨rfl, rfl, rfl, by decide⟩

/-- C8 (amended): for every environment definition table and every list
of `KEY=VALUE` pairs, `miniargv_process_env` invokes, for each definition
with a long name, the callback once per pair whose key (the text before
the first `=`) is a prefix of that long name — the comparison covers only
the key's characters — passing the substring after `=`; every matching
pair fires (duplicate keys each fire, with no first-match short-circuit
across pairs), and the whole operation stops at the first callback that
returns non-zero, returning that callback's result. -/
theorem claim_C8 :
    (∀ (σ : Type) (cbe : EnvCb σ) (env : List (List Char))
       (envdef : List miniargv_definition) (s : σ),
       miniargv_process_env env envdef cbe s
         = runEnvEvents cbe s (envSpecEvents envdef env)) ∧
    (∀ (σ : Type) (cbe : EnvCb σ), (∀ s2 i v, (cbe s2 i v).1 = 0) →
       ∀ (env : List (List Char)) (envdef : List miniargv_definition) (s : σ),
       (miniargv_process_env env envdef cbe s).ret = 0 ∧
         (miniargv_process_env env envdef cbe s).events
           = envSpecEvents envdef env) := by
  constructor
  · intro σ cbe env envdef s
    exact processEnvGo_eq_run cbe env envdef 0 s
  · intro σ cbe hz env envdef s
    rw [show miniargv_process_env env envdef cbe s
      = runEnvEvents cbe s (envSpecEvents envdef env) from
      processEnvGo_eq_run cbe env envdef 0 s]
    exact runEnvEvents_allzero cbe hz (envSpecEvents envdef env) s

/-- Witness for C8: on the concrete table and environment of the
counterexample, the resolver succeeds and performs exactly the owed
invocations. -/
theorem claim_C8_witness :
    (miniargv_process_env envPrefixInput [envPrefixDef] zeroEnvCb ()).ret = 0 ∧
    (miniargv_process_env envPrefixInput [envPrefixDef] zeroEnvCb ()).events
      = envSpecEvents [envPrefixDef] envPrefixInput :=
  claim_C8.2 Unit zeroEnvCb (fun _ _ _ => rfl) envPrefixInput [envPrefixDef] ()

/-- C5: for the table defining `-o`/`--output` (takes a value),
`-v`/`--verbose` (no value) and one positional definition, the combined
left-to-right traversal of `["-v", "-oresult.txt", "input.txt"]`
(with the program name at index 0) invokes exactly the verbose callback
with no value, then the output callback with value `result.txt`, then
the positional callback with value `input.txt`, and returns `0` —
for any callbacks that keep returning success. -/
theorem claim_C5 {σ : Type} (cb : Cb σ) (s : σ)
    (hz : ∀ s2 j v, (cb s2 j v).1 = 0) :
    (miniargv_process_arg cb none exArgv5 exTable s).ret = 0 ∧
    (miniargv_process_arg cb none exArgv5 exTable s).events
      = [ArgEvent.defcb 1 1 none,
         ArgEvent.defcb 2 0 (some ("result.txt".toList)),
         ArgEvent.defcb 3 2 (some ("input.txt".toList))] := by
  have h1 := processLoop_tryCb FLAG_BOTH cb exArgv5 exTable 1 ("-v".toList) s
    1 1 none false ("-v".toList) rfl rfl rfl
  rw [if_pos (hz s 1 none)] at h1
  have h2 := processLoop_tryCb FLAG_BOTH cb exArgv5 exTable 2
    ("-oresult.txt".toList) (cb s 1 none).2 2 0 (some ("result.txt".toList))
    false ("-oresult.txt".toList) rfl rfl rfl
  rw [if_pos (hz _ 0 _)] at h2
  have h3 := processLoop_tryCb FLAG_BOTH cb exArgv5 exTable 3
    ("input.txt".toList) (cb (cb s 1 none).2 0 (some ("result.txt".toList))).2
    3 2 (some ("input.txt".toList)) false ("input.txt".toList) rfl rfl rfl
  rw [if_pos (hz _ 2 _)] at h3
  have h4 := processLoop_none FLAG_BOTH cb none exArgv5 exTable 4
    (cb (cb (cb s 1 none).2 0 (some ("result.txt".toList))).2 2
      (some ("input.txt".toList))).2 rfl
  norm_num at h1 h2 h3 h4
  have hw : miniargv_process_arg cb none exArgv5 exTable s
      = processLoop FLAG_BOTH cb none exArgv5 exTable 1 s := rfl
  rw [hw, h1, h2, h3, h4]
  simp [withEvents]

/-- Witness for C5: with the always-succeeding callback, the example run
returns `0` and produces exactly the three claimed invocations. -/
theorem claim_C5_witness :
    (miniargv_process_arg zeroCb none exArgv5 exTable ()).ret = 0 ∧
    (miniargv_process_arg zeroCb none exArgv5 exTable ()).events
      = [ArgEvent.defcb 1 1 none,
         ArgEvent.defcb 2 0 (some ("result.txt".toList)),
         ArgEvent.defcb 3 2 (some ("input.txt".toList))] :=
  claim_C5 zeroCb () (fun _ _ _ => rfl)

/-- C6: a full argument traversal returns `0` on success and otherwise the
positive index (within the input) of the token that caused the failure;
on the example table, input `["-x"]` (program name at index 0) with no
unmatched-token handler returns `1` and invokes no callbacks; an
unmatched token first goes to the unmatched-token handler when one is
supplied — only when that handler returns non-zero (third conjunct), or
is absent (fourth conjunct), does the traversal abort, returning the bad
token's index. -/
theorem claim_C6 :
    (∀ (σ : Type) (cb : Cb σ) (bad : Option (BadCb σ))
       (argv : List (List Char)) (argdef : List miniargv_definition) (s : σ),
       (miniargv_process_arg cb bad argv argdef s).ret = 0 ∨
         ∃ b : Nat,
           (miniargv_process_arg cb bad argv argdef s).ret = Int.ofNat b ∧
             1 ≤ b ∧ b < argv.length) ∧
    miniargv_process_arg zeroCb none exArgv6 exTable () = ⟨1, [], ()⟩ ∧
    (∀ (σ : Type) (fl : MiniargvFlags) (cb : Cb σ) (f : BadCb σ)
       (argv : List (List Char)) (argdef : List miniargv_definition)
       (i : Nat) (tok : List Char) (s : σ) (evs : List ArgEvent) (s2 : σ)
       (adv : Bool) (btok : List Char),
       fl.ffind = false → nth argv i = some tok →
       matchTok fl cb argv argdef i tok s
         = MatchOut.unmatched evs s2 adv btok →
       (((f s2 btok).1 = 0 →
           processLoop fl cb (some f) argv argdef i s
             = withEvents
                 (evs ++ [ArgEvent.badcb (if adv then i + 1 else i) btok])
                 (processLoop fl cb (some f) argv argdef
                   (i + (if adv then 2 else 1)) (f s2 btok).2)) ∧
        ((f s2 btok).1 ≠ 0 →
           (processLoop fl cb (some f) argv argdef i s).ret
             = Int.ofNat (if adv then i + 1 else i)))) ∧
    (∀ (σ : Type) (fl : MiniargvFlags) (cb : Cb σ)
       (argv : List (List Char)) (argdef : List miniargv_definition)
       (i : Nat) (tok : List Char) (s : σ) (evs : List ArgEvent) (s2 : σ)
       (adv : Bool) (btok : List Char),
       fl.ffind = false → nth argv i = some tok →
       matchTok fl cb argv argdef i tok s
         = MatchOut.unmatched evs s2 adv btok →
       (processLoop fl cb none argv argdef i s).ret
         = Int.ofNat (if adv then i + 1 else i)) := by
  refine ⟨?_, ?_, ?_, ?_⟩
  · intro σ cb bad argv argdef s
    exact processLoop_ret_range argv.length FLAG_BOTH cb bad argv argdef 1 s
      rfl (by omega)
  · rw [miniargv_process_arg_eval]
    rfl
  · intro σ fl cb f argv argdef i tok s evs s2 adv btok hfind htok hmt
    constructor
    · intro hb
      rw [processLoop_unmatched_bad fl cb f argv argdef i tok s evs s2 adv
        btok hfind htok hmt, if_pos hb]
    · intro hb
      rw [processLoop_unmatched_bad fl cb f argv argdef i tok s evs s2 adv
        btok hfind htok hmt, if_neg hb]
  · intro σ fl cb argv argdef i tok s evs s2 adv btok hfind htok hmt
    rw [processLoop_unmatched_nobad fl cb argv argdef i tok s evs s2 adv
      btok hfind htok hmt]

/-- Witness for C6: the token `-x` of the second example is unmatched,
and with no handler installed the traversal aborts returning its index. -/
theorem claim_C6_witness :
    (processLoop FLAG_BOTH zeroCb none exArgv6 exTable 1 ()).ret
      = Int.ofNat (if (false : Bool) then 1 + 1 else 1) :=
  claim_C6.2.2.2 Unit FLAG_BOTH zeroCb exArgv6 exTable 1 ("-x".toList) ()
    [] () false ("-x".toList) rfl rfl rfl

/-- C4: a token that does not begin with `-`, and the bare token `-`, is
classified as a standalone value (first conjunct: the classifier routes
it to the standalone branch, never to the short or long scan); the
standalone branch resolves it against the first table entry with neither
a short nor a long form (second conjunct); and every definition callback
of a values-only pass goes to that single first qualifying entry, so the
one looked-up definition serves all standalone tokens of the traversal
(third conjunct). -/
theorem claim_C4 :
    (∀ (σ : Type) (fl : MiniargvFlags) (cb : Cb σ) (argv : List (List Char))
       (argdef : List miniargv_definition) (i : Nat) (tok : List Char)
       (s : σ),
       tok.head? ≠ some '-' ∨ tok = ['-'] →
       matchTok fl cb argv argdef i tok s
         = standaloneCase fl cb argdef i tok s) ∧
    (∀ (σ : Type) (fl : MiniargvFlags) (cb : Cb σ)
       (argdef : List miniargv_definition) (i : Nat) (tok : List Char)
       (s : σ) (j : Nat) (d : miniargv_definition),
       findFirstIdx standalonePred argdef = some (j, d) →
       standaloneCase fl cb argdef i tok s
         = (if !fl.fvalues then MatchOut.ok [] s false
            else if fl.ffind then MatchOut.found
            else tryCallback true cb s i j (some tok) false tok)) ∧
    (∀ (σ : Type) (cb : Cb σ) (bad : Option (BadCb σ))
       (argv : List (List Char)) (argdef : List miniargv_definition) (s : σ)
       (p j : Nat) (v : Option (List Char)),
       ArgEvent.defcb p j v
         ∈ (miniargv_process_arg_params cb bad argv argdef s).events →
       ∃ d, findFirstIdx standalonePred argdef = some (j, d)) := by
  refine ⟨?_, ?_, ?_⟩
  · intro σ fl cb argv argdef i tok s h
    exact matchTok_standalone_classify fl cb argv argdef i tok s h
  · intro σ fl cb argdef i tok s j d hscan
    unfold standaloneCase
    rw [hscan]
  · intro σ cb bad argv argdef s p j v hm
    have hm2 : ArgEvent.defcb p j v
        ∈ (processLoop FLAG_VALUES cb bad argv argdef 1 s).events := hm
    rcases processLoop_defcb_origin argv.length FLAG_VALUES cb bad argv
        argdef 1 s (by omega) p j v hm2 with
      ⟨c, d, hscan, hf⟩ | ⟨r2, d, name, hscan, hname, hf⟩ | ⟨d, hscan, -, -⟩
    · exact absurd hf (by decide)
    · exact absurd hf (by decide)
    · exact ⟨d, hscan⟩

/-- Witness for C4: the bare token `-` takes the standalone branch. -/
theorem claim_C4_witness :
    matchTok FLAG_BOTH zeroCb exArgv5 exTable 1 ['-'] ()
      = standaloneCase FLAG_BOTH zeroCb exTable 1 ['-'] () :=
  claim_C4.1 Unit FLAG_BOTH zeroCb exArgv5 exTable 1 ['-'] () (Or.inr rfl)

/-- C2: a short-flag token (one `-` followed by a non-`-` character `c`)
resolved against the first table entry with short character `c` behaves
case by case: a no-value entry matches only when nothing follows the
character (first conjunct) and trailing characters make the token
unmatched (second conjunct); a value-taking entry takes trailing
characters of the same token as the value (third conjunct), otherwise
consumes the following token as the value with the advanced cursor
position recorded — `extra = true` (fourth conjunct) — and is unmatched
when no value is available (fifth conjunct); by the sixth conjunct, a
dispatch with `extra = true` whose callback succeeds makes the traversal
continue two positions further, instead of one. -/
theorem claim_C2 {σ : Type} (fl : MiniargvFlags) (cb : Cb σ)
    (argv : List (List Char)) (argdef : List miniargv_definition)
    (i : Nat) (c : Char) (rest : List Char) (s : σ) (j : Nat)
    (d : miniargv_definition)
    (hc : c ≠ '-')
    (hscan : findFirstIdx (shortPred c) argdef = some (j, d)) :
    (d.argparam = false → rest = [] →
       matchTok fl cb argv argdef i ('-' :: c :: rest) s
         = tryCallback fl.fflags cb s i j none false ('-' :: c :: rest)) ∧
    (d.argparam = false → rest ≠ [] →
       matchTok fl cb argv argdef i ('-' :: c :: rest) s
         = MatchOut.unmatched [] s false ('-' :: c :: rest)) ∧
    (d.argparam = true → rest ≠ [] →
       matchTok fl cb argv argdef i ('-' :: c :: rest) s
         = tryCallback fl.fflags cb s i j (some rest) false
             ('-' :: c :: rest)) ∧
    (d.argparam = true → rest = [] →
       ∀ next, nth argv (i + 1) = some next →
       matchTok fl cb argv argdef i ('-' :: c :: rest) s
         = tryCallback fl.fflags cb s (i + 1) j (some next) true next) ∧
    (d.argparam = true → rest = [] → nth argv (i + 1) = none →
       matchTok fl cb argv argdef i ('-' :: c :: rest) s
         = MatchOut.unmatched [] s false ('-' :: c :: rest)) ∧
    (fl.ffind = false →
       ∀ tok pos v extra btok,
       nth argv i = some tok →
       matchTok fl cb argv argdef i tok s
         = tryCallback true cb s pos j v extra btok →
       (cb s j v).1 = 0 →
       processLoop fl cb none argv argdef i s
         = withEvents [ArgEvent.defcb pos j v]
             (processLoop fl cb none argv argdef
               (i + (if extra then 2 else 1)) (cb s j v).2)) := by
  refine ⟨?_, ?_, ?_, ?_, ?_, ?_⟩
  · intro hap hrest
    subst hrest
    simp only [matchTok]
    rw [if_neg (show ¬(('-' : Char) ≠ '-') by simp), if_neg hc, hscan]
    simp [hap]
  · intro hap hrest
    simp only [matchTok]
    rw [if_neg (show ¬(('-' : Char) ≠ '-') by simp), if_neg hc, hscan]
    simp [hap, hrest]
  · intro hap hrest
    simp only [matchTok]
    rw [if_neg (show ¬(('-' : Char) ≠ '-') by simp), if_neg hc, hscan]
    simp [hap, hrest]
  · intro hap hrest next hnext
    subst hrest
    simp only [matchTok]
    rw [if_neg (show ¬(('-' : Char) ≠ '-') by simp), if_neg hc, hscan]
    simp [hap, hnext]
  · intro hap hrest hnone
    subst hrest
    simp only [matchTok]
    rw [if_neg (show ¬(('-' : Char) ≠ '-') by simp), if_neg hc, hscan]
    simp [hap, hnone]
  · intro hfind tok pos v extra btok htok hmt hcb
    rw [processLoop_tryCb fl cb argv argdef i tok s pos j v extra btok
      hfind htok hmt, if_pos hcb]

/-- Witness for C2: `-v` against the example table hits the no-value
entry `-v` / `--verbose` with nothing after the character. -/
theorem claim_C2_witness :
    matchTok FLAG_BOTH zeroCb exArgv5 exTable 1 ('-' :: 'v' :: []) ()
      = tryCallback FLAG_BOTH.fflags zeroCb () 1 1 none false
          ('-' :: 'v' :: []) :=
  (claim_C2 FLAG_BOTH zeroCb exArgv5 exTable 1 'v' [] () 1 exVerboseDef
    (by decide) rfl).1 rfl rfl

/-- C3: a long-flag token `--` followed by `rest` is resolved against the
first table entry whose long name boundary-matches `rest` (the name is a
prefix of `rest` followed by end-of-token or `=`, which is what `longPred`
and `longMatches` test): a no-value entry matches only at exact
end-of-token (first conjunct, with non-matches in the second); a
value-taking entry matches only when `=` follows the name (third
conjunct, with exact end-of-token unmatched by the fourth conjunct and a
non-`=` boundary character unmatched by the fifth); when no entry
boundary-matches, the token is unmatched (sixth conjunct), which covers
proper-prefix remainders such as `--verbosity` against defined
`--verbose` — shown concretely in the eighth conjunct; `--output=` yields
the present-but-empty value `some []` (seventh conjunct), distinct from
the absent value `none` passed for valueless flags (ninth conjunct). -/
theorem claim_C3 {σ : Type} (fl : MiniargvFlags) (cb : Cb σ)
    (argv : List (List Char)) (argdef : List miniargv_definition)
    (i : Nat) (rest : List Char) (s : σ) :
    (∀ j d name,
       findFirstIdx (longPred rest) argdef = some (j, d) →
       d.longarg = some name →
       (d.argparam = false → rest.drop name.length = [] →
          matchTok fl cb argv argdef i ('-' :: '-' :: rest) s
            = tryCallback fl.fflags cb s i j none false
                ('-' :: '-' :: rest)) ∧
       (d.argparam = false → rest.drop name.length ≠ [] →
          matchTok fl cb argv argdef i ('-' :: '-' :: rest) s
            = MatchOut.unmatched [] s false ('-' :: '-' :: rest)) ∧
       (d.argparam = true → ∀ v, rest.drop name.length = '=' :: v →
          matchTok fl cb argv argdef i ('-' :: '-' :: rest) s
            = tryCallback fl.fflags cb s i j (some v) false
                ('-' :: '-' :: rest)) ∧
       (d.argparam = true → rest.drop name.length = [] →
          matchTok fl cb argv argdef i ('-' :: '-' :: rest) s
            = MatchOut.unmatched [] s false ('-' :: '-' :: rest)) ∧
       (d.argparam = true → ∀ c2 cs, rest.drop name.length = c2 :: cs →
          c2 ≠ '=' →
          matchTok fl cb argv argdef i ('-' :: '-' :: rest) s
            = MatchOut.unmatched [] s false ('-' :: '-' :: rest))) ∧
    (findFirstIdx (longPred rest) argdef = none →
       matchTok fl cb argv argdef i ('-' :: '-' :: rest) s
         = MatchOut.unmatched [] s false ('-' :: '-' :: rest)) ∧
    matchTok FLAG_BOTH zeroCb exArgv5 exTable 1 ("--output=".toList) ()
      = MatchOut.ok [ArgEvent.defcb 1 0 (some [])] () false ∧
    matchTok FLAG_BOTH zeroCb exArgv5 exTable 1 ("--verbosity".toList) ()
      = MatchOut.unmatched [] () false ("--verbosity".toList) ∧
    (some ([] : List Char) ≠ (none : Option (List Char))) := by
  refine ⟨?_, ?_, rfl, rfl, by simp⟩
  · intro j d name hscan hname
    refine ⟨?_, ?_, ?_, ?_, ?_⟩
    · intro hap hdrop
      simp only [matchTok]
      rw [if_neg (show ¬(('-' : Char) ≠ '-') by simp), if_pos trivial, hscan]
      dsimp only
      rw [hname]
      simp [hap, hdrop]
    · intro hap hdrop
      simp only [matchTok]
      rw [if_neg (show ¬(('-' : Char) ≠ '-') by simp), if_pos trivial, hscan]
      dsimp only
      rw [hname]
      simp [hap, hdrop]
    · intro hap v hdrop
      simp only [matchTok]
      rw [if_neg (show ¬(('-' : Char) ≠ '-') by simp), if_pos trivial, hscan]
      dsimp only
      rw [hname]
      simp [hap, hdrop]
    · intro hap hdrop
      simp only [matchTok]
      rw [if_neg (show ¬(('-' : Char) ≠ '-') by simp), if_pos trivial, hscan]
      dsimp only
      rw [hname]
      simp [hap, hdrop]
    · intro hap c2 cs hdrop hc2
      simp only [matchTok]
      rw [if_neg (show ¬(('-' : Char) ≠ '-') by simp), if_pos trivial, hscan]
      dsimp only
      rw [hname]
      simp only [hap, Bool.not_true]
      rw [if_neg (by simp)]
      rw [hdrop]
      split
      · rename_i v heq
        cases heq
        exact absurd rfl hc2
      · rfl
  · intro hscan
    simp only [matchTok]
    rw [if_neg (show ¬(('-' : Char) ≠ '-') by simp), if_pos trivial, hscan]

/-- Witness for C3: `--verbose` against the example table matches the
no-value entry exactly at end-of-token. -/
theorem claim_C3_witness :
    matchTok FLAG_BOTH zeroCb exArgv5 exTable 1
        ('-' :: '-' :: ("verbose".toList)) ()
      = tryCallback FLAG_BOTH.fflags zeroCb () 1 1 none false
          ('-' :: '-' :: ("verbose".toList)) :=
  ((claim_C3 FLAG_BOTH zeroCb exArgv5 exTable 1 ("verbose".toList) ()).1
    1 exVerboseDef ("verbose".toList) rfl rfl).1 rfl rfl

/-- C1: the combined left-to-right traversal invokes its definition
callbacks at strictly increasing token positions (first conjunct); the
two-pass entry point `miniargv_process` runs the flags-only pass and then,
when it succeeded, the values-only pass, so its argument-event trace is
the flags pass's trace followed by the values pass's trace (second
conjunct, the equivalence with `miniargv_process_arg_flags` followed by
`miniargv_process_arg_params`); every definition callback of the flags
pass goes to an entry found by the short or long scan, i.e. is a
flag match (third conjunct), and every definition callback of the values
pass goes to the standalone-value entry, i.e. is positional (fourth
conjunct) — so every flag-match callback fires before any positional
callback; and the positional callbacks of the values pass also fire at
strictly increasing token positions, the original left-to-right order
(fifth conjunct). -/
theorem claim_C1 :
    (∀ (σ : Type) (cb : Cb σ) (bad : Option (BadCb σ))
       (argv : List (List Char)) (argdef : List miniargv_definition) (s : σ),
       List.Chain' (· < ·)
         ((miniargv_process_arg cb bad argv argdef s).events.filterMap
           defcbPos)) ∧
    (∀ (σ : Type) (cb : Cb σ) (cbe : EnvCb σ) (bad : Option (BadCb σ))
       (av : List (List Char)) (argdef envdef : List miniargv_definition)
       (s : σ),
       (miniargv_process (some av) none argdef envdef cb cbe bad s).argEvents
         = (miniargv_process_arg_flags cb bad av argdef s).events ++
           (if (miniargv_process_arg_flags cb bad av argdef s).ret = 0 then
             (miniargv_process_arg_params cb bad av argdef
               (miniargv_process_arg_flags cb bad av argdef s).state).events
            else [])) ∧
    (∀ (σ : Type) (cb : Cb σ) (bad : Option (BadCb σ))
       (av : List (List Char)) (argdef : List miniargv_definition) (s : σ)
       (p j : Nat) (v : Option (List Char)),
       ArgEvent.defcb p j v
         ∈ (miniargv_process_arg_flags cb bad av argdef s).events →
       (∃ c d, findFirstIdx (shortPred c) argdef = some (j, d)) ∨
       (∃ r2 d name, findFirstIdx (longPred r2) argdef = some (j, d) ∧
          d.longarg = some name)) ∧
    (∀ (σ : Type) (cb : Cb σ) (bad : Option (BadCb σ))
       (av : List (List Char)) (argdef : List miniargv_definition) (s : σ)
       (p j : Nat) (v : Option (List Char)),
       ArgEvent.defcb p j v
         ∈ (miniargv_process_arg_params cb bad av argdef s).events →
       ∃ d, findFirstIdx standalonePred argdef = some (j, d)) ∧
    (∀ (σ : Type) (cb : Cb σ) (bad : Option (BadCb σ))
       (av : List (List Char)) (argdef : List miniargv_definition) (s : σ),
       List.Chain' (· < ·)
         ((miniargv_process_arg_params cb bad av argdef s).events.filterMap
           defcbPos)) := by
  refine ⟨?_, ?_, ?_, ?_, ?_⟩
  · intro σ cb bad argv argdef s
    exact (processLoop_defcbPos_chain argv.length FLAG_BOTH cb bad argv
      argdef 1 s (by omega)).2
  · intro σ cb cbe bad av argdef envdef s
    simp only [miniargv_process, miniargv_process_arg_flags,
      miniargv_process_arg_params]
    by_cases h : ( miniargv_process_partial FLAG_FLAGS cb bad av argdef 0 s).ret = 0
    · simp [h]
    · simp [h]
  · intro σ cb bad av argdef s p j v hm
    have hm2 : ArgEvent.defcb p j v
        ∈ (processLoop FLAG_FLAGS cb bad av argdef 1 s).events := hm
    rcases processLoop_defcb_origin av.length FLAG_FLAGS cb bad av argdef
        1 s (by omega) p j v hm2 with
      ⟨c, d, hscan, -⟩ | ⟨r2, d, name, hscan, hname, -⟩ | ⟨d, hscan, hv, -⟩
    · exact Or.inl ⟨c, d, hscan⟩
    · exact Or.inr ⟨r2, d, name, hscan, hname⟩
    · exact absurd hv (by decide)
  · intro σ cb bad av argdef s p j v hm
    have hm2 : ArgEvent.defcb p j v
        ∈ (processLoop FLAG_VALUES cb bad av argdef 1 s).events := hm
    rcases processLoop_defcb_origin av.length FLAG_VALUES cb bad av argdef
        1 s (by omega) p j v hm2 with
      ⟨c, d, hscan, hf⟩ | ⟨r2, d, name, hscan, hname, hf⟩ | ⟨d, hscan, -, -⟩
    · exact absurd hf (by decide)
    · exact absurd hf (by decide)
    · exact ⟨d, hscan⟩
  · intro σ cb bad av argdef s
    exact (processLoop_defcbPos_chain av.length FLAG_VALUES cb bad av
      argdef 1 s (by omega)).2

/-- Witness for C1: the first definition callback of the example's
flags-only pass is a flag match. -/
theorem claim_C1_witness :
    (ArgEvent.defcb 1 1 none
        ∈ (miniargv_process_arg_flags zeroCb none exArgv5 exTable ()).events) ∧
    ((∃ c d, findFirstIdx (shortPred c) exTable = some (1, d)) ∨
     (∃ r2 d name, findFirstIdx (longPred r2) exTable = some (1, d) ∧
        d.longarg = some name)) := by
  have he : (miniargv_process_arg_flags zeroCb none exArgv5 exTable ()).events
      = [ArgEvent.defcb 1 1 none,
         ArgEvent.defcb 2 0 (some ("result.txt".toList))] := by
    rw [show miniargv_process_arg_flags zeroCb none exArgv5 exTable ()
      = processLoopF exArgv5.length FLAG_FLAGS zeroCb none exArgv5 exTable 1 ()
      from processLoop_eval FLAG_FLAGS zeroCb none exArgv5 exTable 1 ()]
    rfl
  have hm : ArgEvent.defcb 1 1 none
      ∈ (miniargv_process_arg_flags zeroCb none exArgv5 exTable ()).events := by
    rw [he]
    exact List.mem_cons_self _ _
  exact ⟨hm, claim_C1.2.2.1 Unit zeroCb none exArgv5 exTable () 1 1 none hm⟩

/-- C7: the find-only query `miniargv_get_next_arg_param`, resumed after
input index `argindex`, scans from `argindex + 1`; with no bad-argument
handler it invokes no callback and leaves the caller state untouched
(first conjunct); with trivially succeeding callbacks it returns either
the done sentinel `0` or the index — past the resume point — of a
standalone-value token of the input (second conjunct); the positional
callbacks of a values pass starting at any cursor fire exactly at the
indices `paramFrom` collects (third conjunct), and `paramFrom` is
precisely the external iteration that feeds each returned index back as
the next resume index until the query stops returning a forward in-range
index (fourth conjunct) — so the external iteration enumerates all
positional-value tokens exactly once each, in left-to-right order. -/
theorem claim_C7 :
    (∀ (σ : Type) (argindex : Nat) (cb : Cb σ) (argv : List (List Char))
       (argdef : List miniargv_definition) (s : σ),
       (miniargv_get_next_arg_param argindex cb none argv argdef s).events
         = [] ∧
       (miniargv_get_next_arg_param argindex cb none argv argdef s).state
         = s) ∧
    (∀ (argindex : Nat) (argv : List (List Char))
       (argdef : List miniargv_definition),
       (miniargv_get_next_arg_param argindex zeroCb (some zeroBad)
           argv argdef ()).ret = 0 ∨
         ∃ b tok,
           (miniargv_get_next_arg_param argindex zeroCb (some zeroBad)
               argv argdef ()).ret = Int.ofNat b ∧
           argindex + 1 ≤ b ∧ nth argv b = some tok ∧
           standaloneHit argdef tok = true) ∧
    (∀ (argv : List (List Char)) (argdef : List miniargv_definition)
       (i : Nat), 1 ≤ i →
       (processLoop FLAG_VALUES zeroCb (some zeroBad) argv argdef i
           ()).events.filterMap defcbPos
         = paramFrom argv argdef i) ∧
    (∀ (argv : List (List Char)) (argdef : List miniargv_definition)
       (k : Nat),
       paramFrom argv argdef (k + 1)
         = (if h : 0 < (miniargv_get_next_arg_param k zeroCb (some zeroBad)
                argv argdef ()).ret ∧
              (miniargv_get_next_arg_param k zeroCb (some zeroBad)
                argv argdef ()).ret.toNat < argv.length ∧
              k + 1 ≤ (miniargv_get_next_arg_param k zeroCb (some zeroBad)
                argv argdef ()).ret.toNat
            then (miniargv_get_next_arg_param k zeroCb (some zeroBad)
                argv argdef ()).ret.toNat
              :: paramFrom argv argdef
                  ((miniargv_get_next_arg_param k zeroCb (some zeroBad)
                    argv argdef ()).ret.toNat + 1)
            else [])) := by
  refine ⟨?_, ?_, ?_, ?_⟩
  · intro σ argindex cb argv argdef s
    exact processLoop_find_nobad argv.length FLAG_FIND_VALUE cb argv argdef
      (argindex + 1) s rfl rfl (by omega)
  · intro argindex argv argdef
    rcases findRet_range argv.length argv argdef (argindex + 1) (by omega)
      with h0 | ⟨b, tok, hb, hib, hnb, hh⟩
    · exact Or.inl h0
    · exact Or.inr ⟨b, tok, hb, hib, hnb, hh⟩
  · intro argv argdef i h1
    exact valuesPass_eq_paramFrom argv.length argv argdef i h1 (by omega)
  · intro argv argdef k
    exact paramFrom_eq argv argdef (k + 1)

/-- Witness for C7: on the example input `["prog", "-x"]` the positional
dispatch positions of the values pass are the iterated find-query
indices. -/
theorem claim_C7_witness :
    (processLoop FLAG_VALUES zeroCb (some zeroBad) exArgv6 exTable 1
        ()).events.filterMap defcbPos
      = paramFrom exArgv6 exTable 1 :=
  claim_C7.2.2.1 exArgv6 exTable 1 (by decide)

/-- Witness for C10: at the concrete value 5, the long increment callback
yields 4. -/
theorem claim_C10_witness :
    miniargv_cb_increment_long 5 = (5 - 1, 0) :=
  (claim_C10 5).1

end Miniargv
